import Mathlib

/-!
# Verification of the Calais streaming-chat subsystem

This file gives a shallow embedding, in Lean 4, of the core components of the
Calais repository and proves (or refutes) the testable properties stated in its
specification:

* `calais/content_printer.py` — the incremental field extractor
  (`ContentPrinter`): a two-state machine that watches a text stream for the
  markers around the `"content"` JSON field and prints the unescaped payload.
* `calais/chat.py` — the retry orchestrator (`Chat._generate_response`,
  `Chat._call_gpt_api`, `Chat._process_response_chunk`).
* `calais/response.py` — structured decode/serialize of the `Response` record.

Python strings are modelled as `List Char`.  Machine behaviour that Python
expresses with exceptions is modelled with `Except`/`Option`; printing to
stdout is modelled by returning the printed text.
-/

namespace Calais

/-! ## Python string primitives

`firstIdx` models `haystack.index(needle)` / `needle in haystack`
(`some i` is the index of the first occurrence, `none` means absent).
`findFrom` models `haystack.find(needle, start)`. -/

/-- Index of the first occurrence of `needle` in `hay`, if any. -/
def firstIdx (needle : List Char) : List Char → Option Nat
  | [] => if needle.isPrefixOf ([] : List Char) then some 0 else none
  | c :: rest =>
    if needle.isPrefixOf (c :: rest) then some 0
    else (firstIdx needle rest).map (· + 1)

/-- `hay.find(needle, start)` (as an `Option`). -/
def findFrom (needle hay : List Char) (start : Nat) : Option Nat :=
  (firstIdx needle (hay.drop start)).map (· + start)

/-- Python slice `s[a:b]`. -/
def slice (s : List Char) (a b : Nat) : List Char :=
  (s.drop a).take (b - a)

/-! ## The unicode_escape codec

Model of `codecs.decode(text, "unicode_escape")`.  A result of `.error`
corresponds to the call raising `UnicodeDecodeError`.  The model works at
character level; the Python call round-trips the text through bytes, which
agrees with this model on ASCII input — the regime exercised by the theorems
below.  Escape handling follows the codec: the two-character escapes, octal
escapes of up to three digits, `\xhh`, `\uhhhh`, `\Uhhhhhhhh`, a
backslash-newline line continuation, an error for `\N` and for a trailing
lone backslash, and unknown escapes kept verbatim. -/

/-- Decoded value of the recognised two-character escapes. -/
def simpleEscape : Char → Option Char
  | 'n' => some '\n'
  | 't' => some '\t'
  | 'r' => some (Char.ofNat 13)
  | 'b' => some (Char.ofNat 8)
  | 'f' => some (Char.ofNat 12)
  | 'v' => some (Char.ofNat 11)
  | 'a' => some (Char.ofNat 7)
  | '\\' => some '\\'
  | '\'' => some '\''
  | '"' => some '"'
  | _ => none

/-- Value of a hexadecimal digit. -/
def hexVal (c : Char) : Option Nat :=
  if '0' ≤ c ∧ c ≤ '9' then some (c.toNat - 48)
  else if 'a' ≤ c ∧ c ≤ 'f' then some (c.toNat - 87)
  else if 'A' ≤ c ∧ c ≤ 'F' then some (c.toNat - 55)
  else none

/-- Whether `c` is an octal digit. -/
def isOctal (c : Char) : Bool := '0' ≤ c ∧ c ≤ '7'

/-- Value of an octal digit. -/
def octVal (c : Char) : Nat := c.toNat - 48

/-- Combine two hex digits. -/
def hex2 (a b : Char) : Option Nat := do
  let va ← hexVal a
  let vb ← hexVal b
  pure (va * 16 + vb)

/-- Combine four hex digits. -/
def hex4 (a b c d : Char) : Option Nat := do
  let vab ← hex2 a b
  let vcd ← hex2 c d
  pure (vab * 256 + vcd)

/-- `codecs.decode(·, "unicode_escape")`; `.error ()` models `UnicodeDecodeError`. -/
def uescape : List Char → Except Unit (List Char)
  | [] => .ok []
  | '\\' :: [] => .error ()
  | '\\' :: '\n' :: cs => uescape cs
  | '\\' :: 'x' :: a :: b :: cs2 =>
    match hex2 a b with
    | some v => (uescape cs2).map (Char.ofNat v :: ·)
    | none => .error ()
  | '\\' :: 'x' :: _ => .error ()
  | '\\' :: 'u' :: a :: b :: c2 :: d :: cs2 =>
    match hex4 a b c2 d with
    | some v => (uescape cs2).map (Char.ofNat v :: ·)
    | none => .error ()
  | '\\' :: 'u' :: _ => .error ()
  | '\\' :: 'U' :: a :: b :: c2 :: d :: e :: f :: g :: h :: cs2 =>
    match hex4 a b c2 d, hex4 e f g h with
    | some hi, some lo =>
      if hi * 65536 + lo > 0x10FFFF then .error ()
      else (uescape cs2).map (Char.ofNat (hi * 65536 + lo) :: ·)
    | _, _ => .error ()
  | '\\' :: 'U' :: _ => .error ()
  | '\\' :: 'N' :: _ => .error ()
  | '\\' :: e :: cs =>
    if isOctal e then
      match cs with
      | c2 :: c3 :: cs2 =>
        if isOctal c2 then
          if isOctal c3 then
            (uescape cs2).map
              (Char.ofNat (octVal e * 64 + octVal c2 * 8 + octVal c3) :: ·)
          else (uescape (c3 :: cs2)).map (Char.ofNat (octVal e * 8 + octVal c2) :: ·)
        else (uescape (c2 :: c3 :: cs2)).map (Char.ofNat (octVal e) :: ·)
      | [c2] =>
        if isOctal c2 then (uescape []).map (Char.ofNat (octVal e * 8 + octVal c2) :: ·)
        else (uescape [c2]).map (Char.ofNat (octVal e) :: ·)
      | [] => .ok [Char.ofNat (octVal e)]
    else
      match simpleEscape e with
      | some d => (uescape cs).map (d :: ·)
      | none => (uescape cs).map ('\\' :: e :: ·)
  | c :: rest => (uescape rest).map (c :: ·)

/-- The `try/except UnicodeDecodeError` fallback in `_print_unescaped_chunk`:
on a decode failure the raw text is used. -/
def unescapeOrRaw (s : List Char) : List Char :=
  match uescape s with
  | .ok u => u
  | .error _ => s

/-! ## ContentPrinter (`calais/content_printer.py`)

State `⟨printing_contents, accumulated_chunk, something_printed⟩` mirrors the
three instance attributes.  Each operation returns the successor state paired
with the text printed to stdout. -/

/-- `CONTENTS_START_MARKER = '"content": "'`. -/
def startMarker : List Char := "\"content\": \"".toList

/-- `CONTENTS_END_MARKER = '",'`. -/
def endMarker : List Char := "\",".toList

/-- The mutable state of a `ContentPrinter`. -/
structure PrinterState where
  printing_contents : Bool
  accumulated_chunk : List Char
  something_printed : Bool
  deriving Repr, DecidableEq

/-- `ContentPrinter.__init__`. -/
def initPrinter : PrinterState := ⟨false, [], false⟩

/-- `ContentPrinter._print_unescaped_chunk`: print the chunk with escapes
undone, falling back to the raw text when decoding fails; record that
something was printed only when the printed text is non-empty. -/
def printUnescaped (st : PrinterState) (chunkText : List Char) :
    PrinterState × List Char :=
  let unescaped := unescapeOrRaw chunkText
  if unescaped ≠ [] then
    (⟨st.printing_contents, st.accumulated_chunk, true⟩, unescaped)
  else (st, [])

/-- `ContentPrinter._continue_printing_content`. -/
def continuePrintingContent (st : PrinterState) : PrinterState × List Char :=
  match firstIdx endMarker st.accumulated_chunk with
  | some endIndex =>
    let (st1, out) := printUnescaped st (st.accumulated_chunk.take endIndex)
    let acc1 := st.accumulated_chunk.drop endIndex
    if endMarker.length ≤ acc1.length then
      (⟨false, acc1.drop endMarker.length, st1.something_printed⟩, out)
    else (⟨st1.printing_contents, acc1, st1.something_printed⟩, out)
  | none =>
    -- The end marker may be split across chunks: look for a partial match.
    let potentialEndIndex : Option Nat :=
      if (endMarker.take 1).isSuffixOf st.accumulated_chunk then
        some (st.accumulated_chunk.length - 1)
      else if (endMarker.take 2).isSuffixOf st.accumulated_chunk then
        some (st.accumulated_chunk.length - 2)
      else none
    match potentialEndIndex with
    | some p =>
      let (st1, out) := printUnescaped st (st.accumulated_chunk.take p)
      (⟨st1.printing_contents, st.accumulated_chunk.drop p,
        st1.something_printed⟩, out)
    | none =>
      if ['\\'].isSuffixOf st.accumulated_chunk then
        let (st1, out) :=
          printUnescaped st (st.accumulated_chunk.take
            (st.accumulated_chunk.length - 1))
        (⟨st1.printing_contents, ['\\'], st1.something_printed⟩, out)
      else
        let (st1, out) := printUnescaped st st.accumulated_chunk
        (⟨true, [], st1.something_printed⟩, out)

/-- `ContentPrinter._start_printing_content`. -/
def startPrintingContent (st : PrinterState) : PrinterState × List Char :=
  match firstIdx startMarker st.accumulated_chunk with
  | some i =>
    let startIndex := i + startMarker.length
    match findFrom endMarker st.accumulated_chunk startIndex with
    | some endIndex =>
      let (st1, out) :=
        printUnescaped st (slice st.accumulated_chunk startIndex endIndex)
      (⟨false, st.accumulated_chunk.drop (endIndex + endMarker.length),
        st1.something_printed⟩, out)
    | none =>
      let (st1, out) := printUnescaped st (st.accumulated_chunk.drop startIndex)
      (⟨true, [], st1.something_printed⟩, out)
  | none => (st, [])

/-- `ContentPrinter.print_chunk`. -/
def printChunk (st : PrinterState) (chunkText : List Char) :
    PrinterState × List Char :=
  let st1 : PrinterState :=
    ⟨st.printing_contents, st.accumulated_chunk ++ chunkText,
      st.something_printed⟩
  if st1.printing_contents then continuePrintingContent st1
  else startPrintingContent st1

/-- `ContentPrinter.finish`: print a newline if something was printed.  The
`something_printed` flag is left untouched. -/
def finish (st : PrinterState) : PrinterState × List Char :=
  if st.something_printed then (st, ['\n']) else (st, [])

/-- Feed a sequence of fragments through `print_chunk`, collecting everything
printed. -/
def processChunks : PrinterState → List (List Char) → PrinterState × List Char
  | st, [] => (st, [])
  | st, c :: cs =>
    let r1 := printChunk st c
    let r2 := processChunks r1.1 cs
    (r2.1, r1.2 ++ r2.2)

/-! ### Fragmentation of a canonical extractor input

The fragmentation-invariance property speaks about a logical text made of an
arbitrary prefix, the start marker, an escaped payload, the end marker and an
arbitrary suffix, cut at arbitrary fragment boundaries. -/

/-- The logical text `prefix ++ startMarker ++ payload ++ endMarker ++ suffix`. -/
def extractorText (pre P suf : List Char) : List Char :=
  pre ++ (startMarker ++ (P ++ (endMarker ++ suf)))

/-- Fragment boundaries that do not trip the quote-swallowing path of
`_start_printing_content`: reading fragments from absolute position `k`, no
single fragment may both complete the start marker (start strictly before
position `a`, the end of the start marker) and stop exactly at position
`bPlus1`, one character into the end marker. -/
def GoodSplit (a bPlus1 : Nat) : Nat → List (List Char) → Bool
  | _, [] => true
  | k, frag :: rest =>
    !(decide (k < a) && decide (k + frag.length = bPlus1)) &&
      GoodSplit a bPlus1 (k + frag.length) rest

/-- The extractor state reached after feeding the first `k` characters of
`extractorText pre P suf` through a safe fragmentation: still searching with
everything retained before the start marker is complete; emitting with an
empty buffer through the payload; holding the end marker's quote one
character later; and searching again over the retained suffix once the end
marker is consumed (`a`, `b` abbreviate `|pre| + 12` and `a + |P|`). -/
def sigmaState (pre P suf : List Char) (k : Nat) : PrinterState :=
  if k < pre.length + 12 then
    ⟨false, (extractorText pre P suf).take k, false⟩
  else if k ≤ pre.length + 12 + P.length then
    ⟨true, [], !(P.take (k - (pre.length + 12))).isEmpty⟩
  else if k = pre.length + 12 + P.length + 1 then
    ⟨true, ['"'], !P.isEmpty⟩
  else
    ⟨false, ((extractorText pre P suf).take k).drop (pre.length + 12 + P.length + 2),
      !P.isEmpty⟩

/-! ### Exception-transparent variant of `print_chunk`

To state that `print_chunk` never raises, the same code is written in the
`Except` monad, where the decode is a raising operation and the
`try/except UnicodeDecodeError` block is an explicit catch.  A `.error`
result of these functions would correspond to an exception escaping the
Python method. -/

/-- Python `try/except` over the single exception type of the body. -/
def pyTryCatch {α : Type} (body : Except Unit α) (handler : Unit → Except Unit α) :
    Except Unit α :=
  match body with
  | .ok a => .ok a
  | .error e => handler e

/-- `_print_unescaped_chunk` with the decode allowed to raise; the handler
falls back to the raw chunk. -/
def printUnescapedE (st : PrinterState) (chunkText : List Char) :
    Except Unit (PrinterState × List Char) := do
  let unescaped ← pyTryCatch (uescape chunkText) fun _ => .ok chunkText
  if unescaped ≠ [] then
    pure (⟨st.printing_contents, st.accumulated_chunk, true⟩, unescaped)
  else pure (st, [])

/-- `_continue_printing_content` in the `Except` monad. -/
def continuePrintingContentE (st : PrinterState) :
    Except Unit (PrinterState × List Char) :=
  match firstIdx endMarker st.accumulated_chunk with
  | some endIndex => do
    let (st1, out) ← printUnescapedE st (st.accumulated_chunk.take endIndex)
    let acc1 := st.accumulated_chunk.drop endIndex
    if endMarker.length ≤ acc1.length then
      pure (⟨false, acc1.drop endMarker.length, st1.something_printed⟩, out)
    else pure (⟨st1.printing_contents, acc1, st1.something_printed⟩, out)
  | none =>
    let potentialEndIndex : Option Nat :=
      if (endMarker.take 1).isSuffixOf st.accumulated_chunk then
        some (st.accumulated_chunk.length - 1)
      else if (endMarker.take 2).isSuffixOf st.accumulated_chunk then
        some (st.accumulated_chunk.length - 2)
      else none
    match potentialEndIndex with
    | some p => do
      let (st1, out) ← printUnescapedE st (st.accumulated_chunk.take p)
      pure (⟨st1.printing_contents, st.accumulated_chunk.drop p,
        st1.something_printed⟩, out)
    | none =>
      if ['\\'].isSuffixOf st.accumulated_chunk then do
        let (st1, out) ← printUnescapedE st (st.accumulated_chunk.take
          (st.accumulated_chunk.length - 1))
        pure (⟨st1.printing_contents, ['\\'], st1.something_printed⟩, out)
      else do
        let (st1, out) ← printUnescapedE st st.accumulated_chunk
        pure (⟨true, [], st1.something_printed⟩, out)

/-- `_start_printing_content` in the `Except` monad. -/
def startPrintingContentE (st : PrinterState) :
    Except Unit (PrinterState × List Char) :=
  match firstIdx startMarker st.accumulated_chunk with
  | some i =>
    let startIndex := i + startMarker.length
    match findFrom endMarker st.accumulated_chunk startIndex with
    | some endIndex => do
      let (st1, out) ←
        printUnescapedE st (slice st.accumulated_chunk startIndex endIndex)
      pure (⟨false, st.accumulated_chunk.drop (endIndex + endMarker.length),
        st1.something_printed⟩, out)
    | none => do
      let (st1, out) ← printUnescapedE st (st.accumulated_chunk.drop startIndex)
      pure (⟨true, [], st1.something_printed⟩, out)
  | none => pure (st, [])

/-- `print_chunk` in the `Except` monad. -/
def printChunkE (st : PrinterState) (chunkText : List Char) :
    Except Unit (PrinterState × List Char) :=
  let st1 : PrinterState :=
    ⟨st.printing_contents, st.accumulated_chunk ++ chunkText,
      st.something_printed⟩
  if st1.printing_contents then continuePrintingContentE st1
  else startPrintingContentE st1

/-! ## Chat orchestrator (`calais/chat.py`)

`ChatError` is the unretryable exception class.  The generation client is
abstracted as a function from the attempt number to what `call_api` /
`future.result` deliver for that attempt: a list of stream items, or a raised
`OpenAIError` (authentication errors are a subclass), or a raised
`concurrent.futures.TimeoutError`. -/

/-- The exception classes that can cross `_call_gpt_api`'s boundary. -/
inductive OpenAIErr
  /-- `openai.AuthenticationError`, a subclass of `OpenAIError`. -/
  | authentication (msg : List Char)
  /-- `openai.APIConnectionError`, a subclass of `OpenAIError`. -/
  | connection (msg : List Char)
  /-- any other `OpenAIError`. -/
  | apiOther (msg : List Char)
  deriving Repr, DecidableEq

/-- `ChatError(message)`. -/
inductive ChatE
  | chatError (msg : List Char)
  deriving Repr, DecidableEq

/-- One element of the iterable returned by the client: either a well-typed
`ChatCompletionChunk` (with `choices[0].delta.content` and
`choices[0].finish_reason`), or the ill-typed items `_check_returned_chunk`
guards against. -/
inductive ChunkItem
  | chunk (content : Option (List Char)) (finish_reason : Option (List Char))
  | tupleItem
  | otherItem
  deriving Repr, DecidableEq

/-- `Chat._check_returned_chunk`. -/
def checkReturnedChunk :
    ChunkItem → Except ChatE (Option (List Char) × Option (List Char))
  | .chunk c fr => .ok (c, fr)
  | .tupleItem =>
    .error (.chatError "Received a tuple instead of a ChatCompletionChunk".toList)
  | .otherItem =>
    .error (.chatError "Received an unexpected chunk type".toList)

/-- `Chat._process_response_chunk`: `None` content becomes the empty string;
`finish_reason` `"length"` and unrecognized reasons raise `ChatError`;
`"stop"` signals the end of the stream. -/
def processResponseChunk (content : Option (List Char))
    (finish_reason : Option (List Char)) : Except ChatE (List Char × Bool) :=
  let c := content.getD []
  match finish_reason with
  | some r =>
    if r = "length".toList then
      .error (.chatError "stopped because max_tokens reached".toList)
    else if r = "stop".toList then .ok (c, true)
    else .error (.chatError ("unexpected completion reason: ".toList ++ r))
  | none => .ok (c, false)

/-- Python `str.strip()` restricted to a whitespace test: whether the chunk
text is empty or whitespace-only. -/
def isBlank (s : List Char) : Bool :=
  s.all fun c => c = ' ' ∨ c = '\t' ∨ c = '\n' ∨ c = (Char.ofNat 13) ∨
    c = (Char.ofNat 11) ∨ c = (Char.ofNat 12)

/-- The `for chunk in response` loop of `Chat._call_gpt_api`, accumulating the
response text, the empty-chunk count and the `ContentPrinter` state. -/
def callGptApiLoop (printChunks : Bool) :
    List ChunkItem → PrinterState → List Char → Nat →
      Except ChatE (List Char × Nat × PrinterState)
  | [], pst, text, ec => .ok (text, ec, pst)
  | it :: rest, pst, text, ec =>
    match checkReturnedChunk it with
    | .error e => .error e
    | .ok (content, fr) =>
      match processResponseChunk content fr with
      | .error e => .error e
      | .ok (chunkText, stop) =>
        let text1 := text ++ chunkText
        let pst1 := if printChunks then (printChunk pst chunkText).1 else pst
        let ec1 := if isBlank chunkText then ec + 1 else ec
        if stop then .ok (text1, ec1, pst1)
        else callGptApiLoop printChunks rest pst1 text1 ec1

/-- `Chat._call_gpt_api` on a successfully delivered stream.  The second
component counts how many times `content_printer.finish()` runs: once after
the loop ends (normally or on `stop`), but zero times when a `ChatError`
raised inside the loop propagates, since there is no `try/finally`. -/
def callGptApi (printChunks : Bool) (items : List ChunkItem) :
    Except ChatE (List Char × Nat) × Nat :=
  match callGptApiLoop printChunks items initPrinter [] 0 with
  | .ok (t, ec, _) => (.ok (t, ec), 1)
  | .error e => (.error e, 0)

/-- What one attempt's `call_api`/`future.result` yields. -/
inductive AttemptResult
  | stream (items : List ChunkItem)
  | raiseAPI (e : OpenAIErr)
  | raiseTimeout
  deriving Repr, DecidableEq

/-- The exceptions `_generate_response` can see from one attempt. -/
inductive AttemptErr
  | chatE (e : ChatE)
  | openai (e : OpenAIErr)
  | timeoutE
  deriving Repr, DecidableEq

/-- One full `_call_gpt_api` attempt, including the exceptions of the wrapped
`call_api` future. -/
def callAttempt (printChunks : Bool) :
    AttemptResult → Except AttemptErr (List Char × Nat)
  | .stream items =>
    match (callGptApi printChunks items).1 with
    | .ok r => .ok r
    | .error e => .error (.chatE e)
  | .raiseAPI e => .error (.openai e)
  | .raiseTimeout => .error .timeoutE

/-! ## JSON (`json.loads` / `json.dumps`) and `Response` (`calais/response.py`)

`Json` models the Python values produced by `json.loads`: numbers keep their
source lexeme (their numeric value is never inspected by this code base), and
the non-standard constants `NaN`/`Infinity`/`-Infinity` accepted by the Python
decoder are number lexemes too. -/

/-- A decoded JSON value. -/
inductive Json
  | null
  | bool (b : Bool)
  | num (lexeme : List Char)
  | str (s : List Char)
  | arr (elements : List Json)
  | obj (members : List (List Char × Json))
  deriving Repr

instance : Inhabited Json := ⟨Json.null⟩

/-- JSON whitespace (`' '`, `'\t'`, `'\n'`, `'\r'`). -/
def isJsonWs (c : Char) : Bool :=
  c = ' ' ∨ c = '\t' ∨ c = '\n' ∨ c = (Char.ofNat 13)

/-- Skip JSON whitespace. -/
def skipWs (s : List Char) : List Char := s.dropWhile isJsonWs

/-- The escapes of the JSON string grammar (`json.decoder.BACKSLASH`). -/
def jstrEscChar : Char → Option Char
  | '"' => some '"'
  | '\\' => some '\\'
  | '/' => some '/'
  | 'b' => some (Char.ofNat 8)
  | 'f' => some (Char.ofNat 12)
  | 'n' => some '\n'
  | 'r' => some (Char.ofNat 13)
  | 't' => some '\t'
  | _ => none

/-- The surrogate-pair lookahead of `py_scanstring`: when the decoded
`\uXXXX` value is a high surrogate and the input continues with another
`\uXXXX`, the second escape must have valid hex digits (else the scan
raises); when it is a low surrogate the two combine and both are consumed,
otherwise only the first is consumed. -/
def surrLook (v : Nat) (rest : List Char) : Option (Nat × List Char) :=
  if 0xD800 ≤ v ∧ v ≤ 0xDBFF then
    match rest with
    | '\\' :: 'u' :: g1 :: g2 :: g3 :: g4 :: rest4 =>
      match hex4 g1 g2 g3 g4 with
      | none => none
      | some w =>
        if 0xDC00 ≤ w ∧ w ≤ 0xDFFF then
          some (0x10000 + (v - 0xD800) * 0x400 + (w - 0xDC00), rest4)
        else some (v, rest)
    | _ => some (v, rest)
  else some (v, rest)

/-- `json.decoder.py_scanstring`, after the opening quote: scan the body of a
JSON string up to the closing quote, decoding escapes, combining surrogate
pairs, and rejecting unescaped control characters (`strict=True`).  Returns
the decoded string and the input after the closing quote.  The fuel only
bounds the iteration count; each iteration consumes at least one character,
so any fuel exceeding the input length is enough. -/
def scanJStringF : Nat → List Char → Option (List Char × List Char)
  | 0, _ => none
  | _ + 1, [] => none
  | fuel + 1, c :: rest =>
    if c = '"' then some ([], rest)
    else if c = '\\' then
      match rest with
      | [] => none
      | 'u' :: h1 :: h2 :: h3 :: h4 :: rest3 =>
        (hex4 h1 h2 h3 h4).bind fun v =>
          (surrLook v rest3).bind fun pr =>
            (scanJStringF fuel pr.2).map (fun p => (Char.ofNat pr.1 :: p.1, p.2))
      | 'u' :: _ => none
      | e :: rest2 =>
        match jstrEscChar e with
        | some d => (scanJStringF fuel rest2).map (fun p => (d :: p.1, p.2))
        | none => none
    else if c.toNat < 0x20 then none
    else (scanJStringF fuel rest).map (fun p => (c :: p.1, p.2))

/-- `py_scanstring` with always-sufficient fuel. -/
def scanJString (s : List Char) : Option (List Char × List Char) :=
  scanJStringF (s.length + 1) s

/-- Span of decimal digits. -/
def spanDigits (s : List Char) : List Char × List Char :=
  (s.takeWhile Char.isDigit, s.dropWhile Char.isDigit)

/-- `json.scanner.NUMBER_RE`: `-?(0|[1-9][0-9]*)(\.[0-9]+)?([eE][-+]?[0-9]+)?`,
matched greedily at the head of the input; returns the lexeme and the rest. -/
def scanNumber (s : List Char) : Option (List Char × List Char) :=
  let (sign, s1) :=
    match s with
    | '-' :: t => (['-'], t)
    | _ => (([] : List Char), s)
  match s1 with
  | '0' :: t =>
    some (sign ++ ['0'] ++ scanFrac t, dropFracPart t)
  | c :: t =>
    if c.isDigit then
      let (ds, t1) := spanDigits t
      some (sign ++ (c :: ds) ++ scanFrac t1, dropFracPart t1)
    else none
  | [] => none
where
  /-- the `(\.\d+)?([eE][-+]?\d+)?` tail, as matched text. -/
  scanFrac (t : List Char) : List Char :=
    let (fr, t1) :=
      match t with
      | '.' :: u =>
        match spanDigits u with
        | ([], _) => (([] : List Char), t)
        | (ds, u1) => ('.' :: ds, u1)
      | _ => ([], t)
    let ex :=
      match t1 with
      | e :: u =>
        if e = 'e' ∨ e = 'E' then
          match u with
          | p :: u1 =>
            if p = '+' ∨ p = '-' then
              match spanDigits u1 with
              | ([], _) => ([] : List Char)
              | (ds, _) => e :: p :: ds
            else
              match spanDigits u with
              | ([], _) => ([] : List Char)
              | (ds, _) => e :: ds
          | [] => []
        else []
      | [] => []
    fr ++ ex
  /-- the input left after that tail. -/
  dropFracPart (t : List Char) : List Char :=
    let t1 :=
      match t with
      | '.' :: u =>
        match spanDigits u with
        | ([], _) => t
        | (_, u1) => u1
      | _ => t
    match t1 with
    | e :: u =>
      if e = 'e' ∨ e = 'E' then
        match u with
        | p :: u1 =>
          if p = '+' ∨ p = '-' then
            match spanDigits u1 with
            | ([], _) => t1
            | (_, u2) => u2
          else
            match spanDigits u with
            | ([], _) => t1
            | (_, u2) => u2
        | [] => t1
      else t1
    | [] => t1

mutual

/-- `json.scanner.py_make_scanner`'s `_scan_once`: scan one JSON value.  The
fuel argument only bounds the recursion depth; `loads` passes enough for any
input. -/
def parseValue : Nat → List Char → Option (Json × List Char)
  | 0, _ => none
  | fuel + 1, s =>
    match s with
    | [] => none
    | '"' :: rest => (scanJString rest).map (fun p => (.str p.1, p.2))
    | '{' :: rest => (parseObject fuel rest).map (fun p => (.obj p.1, p.2))
    | '[' :: rest => (parseArray fuel rest).map (fun p => (.arr p.1, p.2))
    | 'n' :: 'u' :: 'l' :: 'l' :: rest => some (.null, rest)
    | 't' :: 'r' :: 'u' :: 'e' :: rest => some (.bool true, rest)
    | 'f' :: 'a' :: 'l' :: 's' :: 'e' :: rest => some (.bool false, rest)
    | 'N' :: 'a' :: 'N' :: rest => some (.num "NaN".toList, rest)
    | 'I' :: 'n' :: 'f' :: 'i' :: 'n' :: 'i' :: 't' :: 'y' :: rest =>
      some (.num "Infinity".toList, rest)
    | _ =>
      match scanNumber s with
      | some (lex, rest) => some (.num lex, rest)
      | none =>
        match s with
        | '-' :: 'I' :: 'n' :: 'f' :: 'i' :: 'n' :: 'i' :: 't' :: 'y' :: rest =>
          some (.num "-Infinity".toList, rest)
        | _ => none

/-- `json.decoder.JSONObject`, after the opening brace. -/
def parseObject (fuel : Nat) (s0 : List Char) :
    Option (List (List Char × Json) × List Char) :=
  match fuel with
  | 0 => none
  | fuel + 1 =>
    match skipWs s0 with
    | '}' :: rest => some ([], rest)
    | '"' :: rest => parseMembers fuel rest []
    | _ => none

/-- The member loop of `JSONObject`; the input starts just after a key's
opening quote. -/
def parseMembers (fuel : Nat) (s : List Char)
    (acc : List (List Char × Json)) :
    Option (List (List Char × Json) × List Char) :=
  match fuel with
  | 0 => none
  | fuel + 1 =>
    match scanJString s with
    | none => none
    | some (key, s1) =>
      match skipWs s1 with
      | ':' :: s2 =>
        match parseValue fuel (skipWs s2) with
        | none => none
        | some (v, s3) =>
          match skipWs s3 with
          | ',' :: s4 =>
            match skipWs s4 with
            | '"' :: s5 => parseMembers fuel s5 (acc ++ [(key, v)])
            | _ => none
          | '}' :: s4 => some (acc ++ [(key, v)], s4)
          | _ => none
      | _ => none

/-- `json.decoder.JSONArray`, after the opening bracket. -/
def parseArray (fuel : Nat) (s0 : List Char) :
    Option (List Json × List Char) :=
  match fuel with
  | 0 => none
  | fuel + 1 =>
    match skipWs s0 with
    | ']' :: rest => some ([], rest)
    | s1 => parseElements fuel s1 []

/-- The element loop of `JSONArray`. -/
def parseElements (fuel : Nat) (s : List Char) (acc : List Json) :
    Option (List Json × List Char) :=
  match fuel with
  | 0 => none
  | fuel + 1 =>
    match parseValue fuel s with
    | none => none
    | some (v, s1) =>
      match skipWs s1 with
      | ',' :: s2 => parseElements fuel (skipWs s2) (acc ++ [v])
      | ']' :: s2 => some (acc ++ [v], s2)
      | _ => none

end

/-- `json.loads`: parse one value with surrounding whitespace and require the
whole input to be consumed (`Extra data` otherwise);  `none` models
`json.JSONDecodeError`.  The fuel bound exceeds any possible recursion
depth for the given input. -/
def loads (s : List Char) : Option Json :=
  match parseValue (3 * s.length + 3) (skipWs s) with
  | some (j, rest) => if skipWs rest = [] then some j else none
  | none => none

/-! ### `json.dumps` for the shapes `Response.to_json` produces -/

/-- Lowercase hex digit. -/
def hexChar (n : Nat) : Char :=
  if n < 10 then Char.ofNat (48 + n) else Char.ofNat (87 + n)

/-- Four lowercase hex digits, most significant first (`'\u%04x'`). -/
def hex4Chars (n : Nat) : List Char :=
  [hexChar (n / 4096 % 16), hexChar (n / 256 % 16), hexChar (n / 16 % 16),
    hexChar (n % 16)]

/-- `json.encoder.py_encode_basestring_ascii` on one character: the short
escapes, printable ASCII verbatim, `\uxxxx` otherwise, with surrogate pairs
above the basic plane. -/
def escapeJChar (c : Char) : List Char :=
  if c = '"' then ['\\', '"']
  else if c = '\\' then ['\\', '\\']
  else if c = '\n' then ['\\', 'n']
  else if c = (Char.ofNat 13) then ['\\', 'r']
  else if c = '\t' then ['\\', 't']
  else if c = (Char.ofNat 8) then ['\\', 'b']
  else if c = (Char.ofNat 12) then ['\\', 'f']
  else if 0x20 ≤ c.toNat ∧ c.toNat ≤ 0x7e then [c]
  else if c.toNat < 0x10000 then '\\' :: 'u' :: hex4Chars c.toNat
  else
    '\\' :: 'u' :: hex4Chars (0xD800 + (c.toNat - 0x10000) / 0x400) ++
      '\\' :: 'u' :: hex4Chars (0xDC00 + (c.toNat - 0x10000) % 0x400)

/-- Escaped body of a JSON string literal. -/
def escapeJString (s : List Char) : List Char := (s.map escapeJChar).flatten

/-- `json.dumps` of a `str`-or-`None` value. -/
def dumpOptStr : Option (List Char) → List Char
  | none => "null".toList
  | some s => '"' :: (escapeJString s ++ ['"'])

/-- The JSON value that `json.loads` recovers from `dumpOptStr`'s output:
`null` for `None`, the string for a string. -/
def jval : Option (List Char) → Json
  | none => .null
  | some s => .str s

/-! ### `Response` (`calais/response.py`) -/

/-- The `Response` dataclass: three `Optional[str]` fields. -/
structure Response where
  content : Option (List Char)
  command : Option (List Char)
  error : Option (List Char)
  deriving Repr, DecidableEq

/-- What `Response.from_json` builds: `data.get(...)` can hand back any JSON
value, not only strings (`None` stands for an absent key or a `null` value,
exactly as in Python, which cannot tell the two apart either). -/
structure PyResponse where
  content : Option Json
  command : Option Json
  error : Option Json

/-- The exceptions `Response.from_json` can raise. -/
inductive PyError
  /-- `ValueError("Invalid JSON string")`, raised for `json.JSONDecodeError`. -/
  | valueError (msg : List Char)
  /-- `AttributeError`: `data.get` on a non-`dict`. -/
  | attributeError

/-- `Response.to_json`: `json.dumps(asdict(self))` with the default
separators and key order `content`, `command`, `error`. -/
def toJson (r : Response) : List Char :=
  "\x7b\"content\": ".toList ++ dumpOptStr r.content ++
    ", \"command\": ".toList ++ dumpOptStr r.command ++
    ", \"error\": ".toList ++ dumpOptStr r.error ++ ['}']

/-- Python `dict(pairs).get(key)`: the value of the last pair with this key. -/
def dictGet (kvs : List (List Char × Json)) (key : List Char) : Option Json :=
  ((kvs.filter fun p => p.1 = key).getLast?).map (·.2)

/-- `data.get(key)` as seen through Python's `None`: a `null` value and an
absent key are both `None`. -/
def pyGet (kvs : List (List Char × Json)) (key : List Char) : Option Json :=
  match dictGet kvs key with
  | some .null => none
  | v => v

/-- `Response.from_json`: `json.loads`, with `JSONDecodeError` re-raised as
`ValueError("Invalid JSON string")`; then `data.get` of the three keys, which
raises `AttributeError` when the decoded value is not a `dict`. -/
def fromJson (s : List Char) : Except PyError PyResponse :=
  match loads s with
  | none => .error (.valueError "Invalid JSON string".toList)
  | some (.obj kvs) =>
    .ok ⟨pyGet kvs "content".toList, pyGet kvs "command".toList,
      pyGet kvs "error".toList⟩
  | some _ => .error .attributeError

/-! ### `Chat._generate_response` -/

/-- How `_generate_response` can terminate abnormally: with a `ChatError`
(its own, or one propagated from `_call_gpt_api`), or with the
`AttributeError` that `Response.from_json` can raise and the
`except ValueError` clause does not catch. -/
inductive GenErr
  | chat (e : ChatE)
  | attr
  deriving Repr

/-- The retry loop of `Chat._generate_response`.  `remaining` counts the
iterations the `while retries <= self.max_retries` guard still allows;
`k` counts the `_call_gpt_api` calls made so far.  The result pairs the
turn's outcome with the total number of attempts performed. -/
def genResponseLoop (behavior : Nat → AttemptResult) (maxEmpty : Nat)
    (printChunks : Bool) : Nat → Nat → Except GenErr PyResponse × Nat
  | 0, k => (.error (.chat (.chatError "Failed to receive a response from OpenAI.".toList)), k)
  | n + 1, k =>
    match callAttempt printChunks (behavior k) with
    | .error (.chatE e) => (.error (.chat e), k + 1)
    | .error (.openai _) => genResponseLoop behavior maxEmpty printChunks n (k + 1)
    | .error .timeoutE => genResponseLoop behavior maxEmpty printChunks n (k + 1)
    | .ok (text, ec) =>
      if maxEmpty < ec then genResponseLoop behavior maxEmpty printChunks n (k + 1)
      else
        match fromJson text with
        | .ok r => (.ok r, k + 1)
        | .error (.valueError _) =>
          genResponseLoop behavior maxEmpty printChunks n (k + 1)
        | .error .attributeError => (.error .attr, k + 1)

/-- `Chat._generate_response` with `max_retries = maxRetries` (a
non-negative configuration value, as the program always uses): the loop body
runs at most `maxRetries + 1` times, after which
`ChatError("Failed to receive a response from OpenAI.")` is raised. -/
def genResponse (behavior : Nat → AttemptResult) (maxRetries maxEmpty : Nat)
    (printChunks : Bool) : Except GenErr PyResponse × Nat :=
  genResponseLoop behavior maxEmpty printChunks (maxRetries + 1) 0

/-! ## Lemmas about `firstIdx` and marker occurrences -/

theorem firstIdx_eq_none_iff {needle : List Char} : ∀ {hay : List Char},
    firstIdx needle hay = none ↔ ∀ i, ¬ needle <+: hay.drop i := by
  intro hay
  induction hay with
  | nil =>
    by_cases h : needle = []
    · subst h
      simp [firstIdx, List.isPrefixOf_iff_prefix]
    · simp only [firstIdx, List.isPrefixOf_iff_prefix, List.drop_nil]
      simp [List.prefix_nil, h]
  | cons c rest ih =>
    by_cases h : needle <+: c :: rest
    · simp [firstIdx, List.isPrefixOf_iff_prefix, h]
      exact ⟨0, h⟩
    · simp only [firstIdx, List.isPrefixOf_iff_prefix, if_neg h, Option.map_eq_none', ih]
      constructor
      · intro hall i
        match i with
        | 0 => simpa using h
        | i + 1 => simpa using hall i
      · intro hall i
        simpa using hall (i + 1)

theorem firstIdx_eq_some_iff {needle : List Char} : ∀ {hay : List Char} {i : Nat},
    firstIdx needle hay = some i ↔
      (needle <+: hay.drop i ∧ ∀ j, j < i → ¬ needle <+: hay.drop j) := by
  intro hay
  induction hay with
  | nil =>
    intro i
    by_cases h : needle = []
    · subst h
      simp only [firstIdx, List.isPrefixOf_iff_prefix]
      constructor
      · intro h0
        have h0' : i = 0 := by simpa using h0.symm
        subst h0'
        simp
      · rintro ⟨-, hmin⟩
        have hi : i = 0 := by
          by_contra hne
          exact hmin 0 (Nat.pos_of_ne_zero hne) (List.nil_prefix)
        subst hi
        simp
    · simp only [firstIdx, List.isPrefixOf_iff_prefix, List.drop_nil]
      simp [List.prefix_nil, h]
  | cons c rest ih =>
    intro i
    by_cases h : needle <+: c :: rest
    · simp only [firstIdx, List.isPrefixOf_iff_prefix, if_pos h]
      constructor
      · rintro h0
        cases h0
        simpa using h
      · rintro ⟨hocc, hmin⟩
        by_contra hne
        have hi : 0 < i := Nat.pos_of_ne_zero fun h0 => hne (congrArg some h0.symm)
        exact hmin 0 hi (by simpa using h)
    · simp only [firstIdx, List.isPrefixOf_iff_prefix, if_neg h]
      constructor
      · intro hmap
        rcases Option.map_eq_some'.mp hmap with ⟨i0, hi0, rfl⟩
        rcases ih.mp hi0 with ⟨hocc, hmin⟩
        refine ⟨by simpa using hocc, ?_⟩
        intro j hj
        match j with
        | 0 => simpa using h
        | j + 1 => simpa using hmin j (by omega)
      · rintro ⟨hocc, hmin⟩
        match i with
        | 0 => exact absurd (by simpa using hocc) h
        | i + 1 =>
          have : firstIdx needle rest = some i := by
            refine ih.mpr ⟨by simpa using hocc, ?_⟩
            intro j hj
            have := hmin (j + 1) (by omega)
            simpa using this
          simp [this]

/-- An occurrence pins down the character of the haystack at its position. -/
theorem getElem?_of_occurrence {needle hay : List Char} {i : Nat} {c : Char}
    (hocc : needle <+: hay.drop i) (hhead : needle.head? = some c) :
    hay[i]? = some c := by
  rcases hocc with ⟨t, ht⟩
  have hh : (hay.drop i).head? = some c := by
    rw [← ht]
    match needle, hhead with
    | c0 :: ns, h0 => simpa using (by simpa using h0)
  rwa [List.head?_drop] at hh

/-- A needle that starts with a quote has no occurrence in quote-free text. -/
theorem not_occurrence_of_quote_free {needle hay : List Char}
    (hq : '"' ∉ hay) (hhead : needle.head? = some '"') (i : Nat) :
    ¬ needle <+: hay.drop i := by
  intro hocc
  exact hq (List.getElem?_mem (getElem?_of_occurrence hocc hhead))

theorem firstIdx_none_of_quote_free {needle hay : List Char}
    (hq : '"' ∉ hay) (hhead : needle.head? = some '"') :
    firstIdx needle hay = none :=
  firstIdx_eq_none_iff.mpr (not_occurrence_of_quote_free hq hhead)

/-- In `a ++ s` with `a` quote-free and `s` shorter than the needle, a
quote-headed needle has no occurrence. -/
theorem firstIdx_none_append_short {needle a s : List Char}
    (hq : '"' ∉ a) (hhead : needle.head? = some '"')
    (hs : s.length < needle.length) :
    firstIdx needle (a ++ s) = none := by
  rw [firstIdx_eq_none_iff]
  intro i hocc
  rcases Nat.lt_or_ge i a.length with hi | hi
  · have h1 : (a ++ s)[i]? = some '"' := getElem?_of_occurrence hocc hhead
    rw [List.getElem?_append_left hi] at h1
    exact hq (List.getElem?_mem h1)
  · have h1 := hocc.length_le
    rw [List.length_drop, List.length_append] at h1
    omega

/-- First occurrence of a quote-headed needle placed after quote-free text. -/
theorem firstIdx_append_marker {needle a b : List Char}
    (hq : '"' ∉ a) (hhead : needle.head? = some '"') :
    firstIdx needle (a ++ (needle ++ b)) = some a.length := by
  rw [firstIdx_eq_some_iff]
  constructor
  · rw [List.drop_left]
    exact List.prefix_append needle b
  · intro j hj hocc
    have h1 : (a ++ (needle ++ b))[j]? = some '"' := getElem?_of_occurrence hocc hhead
    rw [List.getElem?_append_left hj] at h1
    exact hq (List.getElem?_mem h1)

/-- A suffix occurrence is an occurrence. -/
theorem exists_occurrence_of_suffix {m s : List Char} (h : m <:+ s) :
    ∃ i, m <+: s.drop i := by
  rcases h with ⟨t, rfl⟩
  exact ⟨t.length, by rw [List.drop_left]⟩

/-- Backslash-free text decodes to itself. -/
theorem uescape_of_no_backslash : ∀ {s : List Char}, '\\' ∉ s → uescape s = .ok s := by
  intro s
  induction s with
  | nil => intro _; rw [uescape]
  | cons c rest ih =>
    intro h
    have hc : ¬ c = '\\' := fun hc => h (hc ▸ List.mem_cons_self c rest)
    have hr : '\\' ∉ rest := fun hr => h (List.mem_cons_of_mem c hr)
    rw [uescape.eq_def]
    simp [hc, ih hr, Except.map]

theorem unescapeOrRaw_of_no_backslash {s : List Char} (h : '\\' ∉ s) :
    unescapeOrRaw s = s := by
  simp [unescapeOrRaw, uescape_of_no_backslash h]

/-! ## Claim C2 — the Field Extractor never raises -/

theorem printUnescapedE_eq (st : PrinterState) (s : List Char) :
    printUnescapedE st s = .ok (printUnescaped st s) := by
  unfold printUnescapedE printUnescaped pyTryCatch unescapeOrRaw
  rcases h : uescape s with e | u
  · by_cases hs : s = [] <;>
      simp [h, hs, Bind.bind, Except.bind, pure, Except.pure]
  · by_cases hu : u = [] <;>
      simp [h, hu, Bind.bind, Except.bind, pure, Except.pure]

theorem continuePrintingContentE_eq (st : PrinterState) :
    continuePrintingContentE st = .ok (continuePrintingContent st) := by
  unfold continuePrintingContentE continuePrintingContent
  rcases h : firstIdx endMarker st.accumulated_chunk with - | i <;>
    simp only [h, printUnescapedE_eq] <;>
    simp only [Bind.bind, Except.bind, pure, Except.pure] <;>
    (repeat' split) <;> rfl

theorem startPrintingContentE_eq (st : PrinterState) :
    startPrintingContentE st = .ok (startPrintingContent st) := by
  unfold startPrintingContentE startPrintingContent
  rcases h : firstIdx startMarker st.accumulated_chunk with - | i
  · rfl
  · rcases h2 : findFrom endMarker st.accumulated_chunk (i + startMarker.length)
        with - | j <;> simp only [h, h2, printUnescapedE_eq] <;>
      simp only [Bind.bind, Except.bind, pure, Except.pure]

/-- Claim C2: the Field Extractor never raises.  `print_chunk`, written in the
exception monad with the escape decode as a raising operation, returns `.ok`
on every state and string input (and agrees with the total model); and when
escape-decoding an emitted piece fails, the raw un-decoded text is exactly
what gets printed. -/
theorem printChunk_never_raises (st : PrinterState) (s piece : List Char) :
    printChunkE st s = .ok (printChunk st s) ∧
      (uescape piece = .error () → (printUnescaped st piece).2 = piece) := by
  constructor
  · simp only [printChunkE, printChunk]
    split
    · exact continuePrintingContentE_eq _
    · exact startPrintingContentE_eq _
  · intro herr
    have hne : piece ≠ [] := by
      intro h0
      subst h0
      exact Except.noConfusion herr
    simp [printUnescaped, unescapeOrRaw, herr, hne]

/-- Witness for C2 at a concrete input whose decode fails (a chunk ending in a
lone backslash). -/
theorem printChunk_never_raises_witness :
    printChunkE initPrinter "ab\\".toList = .ok (printChunk initPrinter "ab\\".toList) ∧
      (printUnescaped initPrinter "ab\\".toList).2 = "ab\\".toList :=
  ⟨(printChunk_never_raises initPrinter "ab\\".toList "ab\\".toList).1,
    (printChunk_never_raises initPrinter "ab\\".toList "ab\\".toList).2 rfl⟩

/-! ## Claim C7 — idempotent `finish` -/

/-- Claim C7 counterexample: after a turn in which text was printed, two
consecutive `finish()` calls print two newlines — `finish` never resets
`something_printed`, so it double-prints, contrary to the claim. -/
theorem finish_twice_double_prints :
    (finish ((printChunk initPrinter "\"content\": \"hi\",".toList).1)).2 ++
      (finish ((finish ((printChunk initPrinter
        "\"content\": \"hi\",".toList).1)).1)).2 = ['\n', '\n'] := rfl

/-- Claim C7 (amended): `finish` emits nothing when nothing has been printed;
once something has been printed it emits exactly one newline on each call —
the flag is not reset, so a second consecutive call prints a second newline. -/
theorem finish_amended (st : PrinterState) :
    (st.something_printed = false → finish st = (st, [])) ∧
      (st.something_printed = true →
        (finish st).2 = ['\n'] ∧ (finish (finish st).1).2 = ['\n']) := by
  cases h : st.something_printed <;> simp [finish, h]

/-- Witness for C7 (amended) at concrete states on both sides of the flag. -/
theorem finish_amended_witness :
    finish initPrinter = (initPrinter, []) ∧
      ((finish (⟨false, [], true⟩ : PrinterState)).2 = ['\n'] ∧
        (finish (finish (⟨false, [], true⟩ : PrinterState)).1).2 = ['\n']) :=
  ⟨(finish_amended initPrinter).1 rfl, (finish_amended ⟨false, [], true⟩).2 rfl⟩

/-! ## Claim C8 — the buffer invariant -/

/-- Claim C8 counterexample: a single marker-free chunk of 12 characters is
retained whole, so after the call the buffer is not strictly shorter than the
12-character start marker. -/
theorem buffer_unbounded_counterexample :
    ((printChunk initPrinter "abcdefghijkl".toList).1).accumulated_chunk.length = 12 ∧
      startMarker.length = 12 :=
  ⟨rfl, rfl⟩

/-- Claim C8 (amended): after any `print_chunk` call that leaves the extractor
in the EMITTING state, the retained buffer is strictly shorter than the end
marker (it is at most one held character); in the SEARCHING state the buffer
is unbounded. -/
theorem buffer_amended (st : PrinterState) (s : List Char)
    (h : ((printChunk st s).1).printing_contents = true) :
    ((printChunk st s).1).accumulated_chunk.length < endMarker.length := by
  have hend : endMarker.length = 2 := rfl
  revert h
  simp only [printChunk]
  split
  · -- `_continue_printing_content`
    set acc := st.accumulated_chunk ++ s with hacc
    simp only [continuePrintingContent]
    rcases hidx : firstIdx endMarker acc with - | i <;> simp only [hidx]
    · -- no full end marker in the buffer
      by_cases h1 : (endMarker.take 1).isSuffixOf acc
      · have hlen : 1 ≤ acc.length := by
          have h1a := (List.isSuffixOf_iff_suffix.mp h1).length_le
          have h1b : (List.take 1 endMarker).length = 1 := rfl
          omega
        intro _
        simp only [h1, if_pos]
        simp [List.length_drop, hend]
        omega
      · by_cases h2 : (endMarker.take 2).isSuffixOf acc
        · exfalso
          have htake : List.take 2 endMarker = endMarker := rfl
          have hsuf : endMarker <:+ acc := by
            have h2a : (List.take 2 endMarker).isSuffixOf acc = true := h2
            rw [htake] at h2a
            exact List.isSuffixOf_iff_suffix.mp h2a
          rcases exists_occurrence_of_suffix hsuf with ⟨j, hj⟩
          exact (firstIdx_eq_none_iff.mp hidx) j hj
        · by_cases h3 : ['\\'].isSuffixOf acc <;> intro _ <;> simp [h1, h2, h3, hend]
    · -- a full end marker was found at `i`
      have hocc : endMarker <+: acc.drop i := (firstIdx_eq_some_iff.mp hidx).1
      have hge : endMarker.length ≤ (acc.drop i).length := hocc.length_le
      intro h
      simp only [hge, if_pos] at h
      exact absurd h (by simp)
  · -- `_start_printing_content` never leaves a non-empty buffer in EMITTING
    rename_i hnp
    simp only [startPrintingContent]
    rcases hidx : firstIdx startMarker (st.accumulated_chunk ++ s) with - | i <;>
      simp only [hidx]
    · intro h
      simp at hnp
      simp [hnp] at h
    · rcases hfind : findFrom endMarker (st.accumulated_chunk ++ s)
          (i + startMarker.length) with - | j <;> simp only [hfind]
      · intro _
        simp [hend]
      · intro h
        simp at h

/-- Witness for C8 (amended): a concrete call that stays in EMITTING. -/
theorem buffer_amended_witness :
    ((printChunk (⟨true, [], false⟩ : PrinterState) "ab".toList).1).printing_contents
        = true ∧
      ((printChunk (⟨true, [], false⟩ : PrinterState) "ab".toList).1).accumulated_chunk.length
        < endMarker.length :=
  ⟨rfl, buffer_amended ⟨true, [], false⟩ "ab".toList rfl⟩

/-! ## Claim C3 — `finish()` once per attempt -/

/-- Claim C3 counterexample: an attempt aborted by a fragment with terminal
marker `length` raises out of the chunk loop before `content_printer.finish()`
is reached, so `finish` runs zero times on that attempt, not once. -/
theorem finish_skipped_on_fatal_counterexample :
    callGptApi true [.chunk none (some "length".toList)] =
      (.error (.chatError "stopped because max_tokens reached".toList), 0) := rfl

/-- Claim C3 (amended): within one `_call_gpt_api` attempt over a delivered
stream, `finish()` runs exactly once when the fragment loop completes normally
or stops on the stop marker, and zero times when a `ChatError` (terminal
marker `length`, an unrecognized terminal reason, or a malformed chunk)
aborts the attempt — there is no `try/finally` around the loop. -/
theorem finish_once_amended (printChunks : Bool) (items : List ChunkItem) :
    (callGptApi printChunks items).2 =
      if ((callGptApi printChunks items).1).isOk then 1 else 0 := by
  unfold callGptApi
  rcases h : callGptApiLoop printChunks items initPrinter [] 0 with t | e
  · rfl
  · rfl

/-! ## Claims C4, C5, C6 — the retry loop -/

/-- All-retry run of the loop: when every attempt ends in a caught, retryable
way (an `OpenAIError`, a timeout, too many empty chunks, or a decode
`ValueError`), the loop uses its whole budget and then raises the
retries-exhausted `ChatError`. -/
theorem genResponseLoop_all_retryable (behavior : Nat → AttemptResult)
    (maxEmpty : Nat) (pc : Bool)
    (h : ∀ k, (∃ e, callAttempt pc (behavior k) = .error (.openai e)) ∨
      callAttempt pc (behavior k) = .error .timeoutE ∨
      (∃ t ec, callAttempt pc (behavior k) = .ok (t, ec) ∧
        (maxEmpty < ec ∨ ∃ m, fromJson t = .error (.valueError m)))) :
    ∀ rem k, genResponseLoop behavior maxEmpty pc rem k =
      (.error (.chat (.chatError "Failed to receive a response from OpenAI.".toList)),
        k + rem) := by
  intro rem
  induction rem with
  | zero => intro k; rfl
  | succ n ih =>
    intro k
    rcases h k with ⟨e, he⟩ | he | ⟨t, ec, he, hre⟩
    · simp only [genResponseLoop, he, ih, Prod.mk.injEq]
      exact ⟨trivial, by omega⟩
    · simp only [genResponseLoop, he, ih, Prod.mk.injEq]
      exact ⟨trivial, by omega⟩
    · rcases hre with hec | ⟨m, hm⟩
      · simp only [genResponseLoop, he, if_pos hec, ih, Prod.mk.injEq]
        exact ⟨trivial, by omega⟩
      · by_cases hec : maxEmpty < ec
        · simp only [genResponseLoop, he, if_pos hec, ih, Prod.mk.injEq]
          exact ⟨trivial, by omega⟩
        · simp only [genResponseLoop, he, if_neg hec, hm, ih, Prod.mk.injEq]
          exact ⟨trivial, by omega⟩

/-- Claim C4 counterexample: with `max_retries = 2 > 0` and a client whose
every attempt raises an authentication error, `_generate_response` performs
three attempts (the `except OpenAIError` clause catches the subclass
`AuthenticationError` and retries), and what finally propagates is the
retries-exhausted `ChatError`, not the authentication error. -/
theorem auth_error_counterexample :
    genResponse (fun _ => .raiseAPI (.authentication "Incorrect API key provided".toList))
        2 0 false =
      (.error (.chat (.chatError "Failed to receive a response from OpenAI.".toList)), 3) :=
  rfl

/-- Claim C4 (amended): an authentication error raised by the generation
client is an `OpenAIError`, so `_generate_response` catches it and retries
like any transport error; with `max_retries = n` it performs `n + 1` attempts
and then raises `ChatError("Failed to receive a response from OpenAI.")` —
the authentication error itself never propagates. -/
theorem auth_error_retried (behavior : Nat → AttemptResult)
    (maxRetries maxEmpty : Nat) (pc : Bool) (msg : List Char)
    (h : ∀ n, behavior n = .raiseAPI (.authentication msg)) :
    genResponse behavior maxRetries maxEmpty pc =
      (.error (.chat (.chatError "Failed to receive a response from OpenAI.".toList)),
        maxRetries + 1) := by
  have := genResponseLoop_all_retryable behavior maxEmpty pc
    (fun k => Or.inl ⟨.authentication msg, by rw [h k]; rfl⟩) (maxRetries + 1) 0
  simpa [genResponse] using this

/-- Witness for C4 (amended) at a concrete configuration. -/
theorem auth_error_retried_witness :
    genResponse (fun _ => .raiseAPI (.authentication "invalid api key".toList)) 4 7 true =
      (.error (.chat (.chatError "Failed to receive a response from OpenAI.".toList)), 5) :=
  auth_error_retried _ 4 7 true "invalid api key".toList (fun _ => rfl)

/-- Claim C5: with a client whose every attempt delivers a response whose
accumulated text fails structured decode (a decode `ValueError`),
`_generate_response` performs exactly `max_retries + 1` attempts
(`_call_gpt_api` calls) and then raises the specific
`ChatError("Failed to receive a response from OpenAI.")` — a different
failure from the mid-stream truncation error
`ChatError("stopped because max_tokens reached")`. -/
theorem retry_bound (behavior : Nat → AttemptResult)
    (maxRetries maxEmpty : Nat) (pc : Bool)
    (h : ∀ n, ∃ t ec, callAttempt pc (behavior n) = .ok (t, ec) ∧
      ∃ m, fromJson t = .error (.valueError m)) :
    genResponse behavior maxRetries maxEmpty pc =
      (.error (.chat (.chatError "Failed to receive a response from OpenAI.".toList)),
        maxRetries + 1) ∧
      "Failed to receive a response from OpenAI.".toList ≠
        "stopped because max_tokens reached".toList := by
  constructor
  · have := genResponseLoop_all_retryable behavior maxEmpty pc
      (fun k => by
        rcases h k with ⟨t, ec, he, m, hm⟩
        exact Or.inr (Or.inr ⟨t, ec, he, Or.inr ⟨m, hm⟩⟩)) (maxRetries + 1) 0
    simpa [genResponse] using this
  · decide

/-- Witness for C5: every attempt streams the undecodable text `not json`. -/
theorem retry_bound_witness :
    genResponse (fun _ => .stream [.chunk (some "not json".toList) (some "stop".toList)])
        2 5 false =
      (.error (.chat (.chatError "Failed to receive a response from OpenAI.".toList)), 3) :=
  (retry_bound (fun _ => .stream [.chunk (some "not json".toList) (some "stop".toList)])
    2 5 false (fun _ =>
    ⟨"not json".toList, 0, rfl, ⟨"Invalid JSON string".toList, rfl⟩⟩)).1

/-- The chunk loop aborts with the truncation `ChatError` as soon as it meets
a `length`-marked fragment, regardless of the accumulator state. -/
theorem callGptApiLoop_length (pc : Bool) (c : Option (List Char))
    (post : List ChunkItem) :
    ∀ (pre : List ChunkItem), (∀ it ∈ pre, ∃ cc, it = ChunkItem.chunk cc none) →
      ∀ pst text ec,
        callGptApiLoop pc (pre ++ ChunkItem.chunk c (some "length".toList) :: post)
            pst text ec =
          .error (.chatError "stopped because max_tokens reached".toList) := by
  intro pre
  induction pre with
  | nil =>
    intro _ pst text ec
    rfl
  | cons it rest ih =>
    intro hpre pst text ec
    rcases hpre it (List.mem_cons_self it rest) with ⟨cc, rfl⟩
    simp only [List.cons_append, callGptApiLoop, checkReturnedChunk,
      processResponseChunk]
    exact ih (fun x hx => hpre x (List.mem_cons_of_mem _ hx)) _ _ _

/-- Claim C6: a fragment with terminal marker `length` in the first attempt
(preceded only by ordinary fragments with no terminal marker) ends the turn
immediately: the truncation `ChatError` propagates out of
`_generate_response` after exactly one attempt — zero retries — for every
`max_retries` and `max_empty_chunks` configuration. -/
theorem truncation_fatal (behavior : Nat → AttemptResult)
    (maxRetries maxEmpty : Nat) (pc : Bool) (pre post : List ChunkItem)
    (c : Option (List Char))
    (h0 : behavior 0 = .stream (pre ++ ChunkItem.chunk c (some "length".toList) :: post))
    (hpre : ∀ it ∈ pre, ∃ cc, it = ChunkItem.chunk cc none) :
    genResponse behavior maxRetries maxEmpty pc =
      (.error (.chat (.chatError "stopped because max_tokens reached".toList)), 1) := by
  have hcall : callAttempt pc (behavior 0) =
      .error (.chatE (.chatError "stopped because max_tokens reached".toList)) := by
    rw [h0]
    simp only [callAttempt, callGptApi,
      callGptApiLoop_length pc c post pre hpre initPrinter [] 0]
  simp [genResponse, genResponseLoop, hcall]

/-- Witness for C6: one truncated fragment, a positive retry budget. -/
theorem truncation_fatal_witness :
    genResponse (fun _ => .stream [.chunk (some "partial".toList) (some "length".toList)])
        3 10 true =
      (.error (.chat (.chatError "stopped because max_tokens reached".toList)), 1) :=
  truncation_fatal _ 3 10 true [] [] (some "partial".toList) rfl (by simp)

/-! ## Claim C9 — the structured decode contract -/

/-- Claim C9 counterexample: `42` is valid JSON whose top level is not an
object; `Response.from_json` raises `AttributeError` (from `data.get` on an
`int`), not the `ValueError` the claim promises for every non-object input. -/
theorem fromJson_attribute_error_counterexample :
    fromJson "42".toList = .error .attributeError ∧
      fromJson "42".toList ≠ .error (.valueError "Invalid JSON string".toList) :=
  ⟨rfl, by
    rw [show fromJson "42".toList = Except.error PyError.attributeError from rfl]
    simp⟩

/-- Claim C9 (amended): `Response.from_json` returns a `Response` exactly when
the input parses as a JSON object, with absent keys decoding to `None`; a
JSON syntax error raises `ValueError("Invalid JSON string")`; but valid JSON
whose top level is not an object raises an uncaught `AttributeError` from
`data.get`, not a `ValueError`. -/
theorem fromJson_contract (s : List Char) :
    ((∃ r, fromJson s = .ok r) ↔ ∃ kvs, loads s = some (.obj kvs)) ∧
      (loads s = none →
        fromJson s = .error (.valueError "Invalid JSON string".toList)) ∧
      (∀ j, loads s = some j → (∀ kvs, j ≠ .obj kvs) →
        fromJson s = .error .attributeError) ∧
      (∀ kvs, loads s = some (.obj kvs) →
        fromJson s = .ok ⟨pyGet kvs "content".toList, pyGet kvs "command".toList,
          pyGet kvs "error".toList⟩) := by
  unfold fromJson
  rcases h : loads s with - | j
  · exact ⟨by simp, fun _ => rfl, fun j hj => by simp at hj, fun kvs hk => by simp at hk⟩
  · cases j with
    | obj kvs =>
      refine ⟨by simp, by simp, fun j hj hno => ?_, fun kvs2 hk => ?_⟩
      · rw [Option.some_inj] at hj
        exact absurd rfl (hj ▸ hno kvs)
      · rw [Option.some_inj, Json.obj.injEq] at hk
        subst hk
        rfl
    | null =>
      exact ⟨by simp, by simp, fun j hj hno => rfl, fun kvs hk => by simp at hk⟩
    | bool b =>
      exact ⟨by simp, by simp, fun j hj hno => rfl, fun kvs hk => by simp at hk⟩
    | num l =>
      exact ⟨by simp, by simp, fun j hj hno => rfl, fun kvs hk => by simp at hk⟩
    | str l =>
      exact ⟨by simp, by simp, fun j hj hno => rfl, fun kvs hk => by simp at hk⟩
    | arr xs =>
      exact ⟨by simp, by simp, fun j hj hno => rfl, fun kvs hk => by simp at hk⟩

/-- Witness for C9 (amended) on one input of each kind. -/
theorem fromJson_contract_witness :
    fromJson "\x7b\"content\": \"hi\"\x7d".toList =
        .ok ⟨some (.str "hi".toList), none, none⟩ ∧
      fromJson "\x7b".toList = .error (.valueError "Invalid JSON string".toList) ∧
      fromJson "[1]".toList = .error .attributeError :=
  ⟨(fromJson_contract "\x7b\"content\": \"hi\"\x7d".toList).2.2.2
      [("content".toList, .str "hi".toList)] rfl,
    (fromJson_contract "\x7b".toList).2.1 rfl,
    (fromJson_contract "[1]".toList).2.2.1 (.arr [.num ['1']]) rfl
      (fun _ h => Json.noConfusion h)⟩

/-! ## Claim C10 — serialization round trip -/

theorem hexVal_hexChar : ∀ m, m < 16 → hexVal (hexChar m) = some m := by decide

theorem hex4_hex4Chars {n : Nat} (h : n < 65536) :
    hex4 (hexChar (n / 4096 % 16)) (hexChar (n / 256 % 16)) (hexChar (n / 16 % 16))
      (hexChar (n % 16)) = some n := by
  have h1 : n / 4096 % 16 < 16 := Nat.mod_lt _ (by norm_num)
  have h2 : n / 256 % 16 < 16 := Nat.mod_lt _ (by norm_num)
  have h3 : n / 16 % 16 < 16 := Nat.mod_lt _ (by norm_num)
  have h4v : n % 16 < 16 := Nat.mod_lt _ (by norm_num)
  simp only [hex4, hex2, hexVal_hexChar _ h1, hexVal_hexChar _ h2,
    hexVal_hexChar _ h3, hexVal_hexChar _ h4v, Option.bind_some, Option.some_bind,
    bind, Option.bind, pure]
  congr 1
  omega

/-- The characters of a `Char` are valid scalar values: never surrogates. -/
theorem char_toNat_valid (c : Char) :
    c.toNat < 0xD800 ∨ (0xDFFF < c.toNat ∧ c.toNat < 0x110000) := by
  rcases c.valid with h | ⟨h1, h2⟩
  · exact Or.inl h
  · exact Or.inr ⟨h1, h2⟩

theorem scanJStringF_escape : ∀ (s : List Char) (fuel : Nat) (rest : List Char),
    s.length < fuel →
    scanJStringF fuel (escapeJString s ++ '"' :: rest) = some (s, rest) := by
  intro s
  induction s with
  | nil =>
    intro fuel rest hf
    match fuel, hf with
    | f + 1, _ => simp [escapeJString, scanJStringF]
  | cons c tail ih =>
    intro fuel rest hf
    match fuel, hf with
    | f + 1, hf =>
      have htail : tail.length < f := by
        simp only [List.length_cons] at hf
        omega
      have hexp : escapeJString (c :: tail) ++ '"' :: rest =
          escapeJChar c ++ (escapeJString tail ++ '"' :: rest) := by
        simp [escapeJString]
      rw [hexp]
      by_cases h1 : c = '"'
      · subst h1
        have hstep : ∀ X, scanJStringF (f + 1) ('\\' :: '"' :: X) =
            (scanJStringF f X).map (fun p => ('"' :: p.1, p.2)) := fun _ => rfl
        rw [show escapeJChar '"' = ['\\', '"'] from rfl, List.cons_append,
          List.cons_append, List.nil_append, hstep, ih f rest htail]
        rfl
      by_cases h2 : c = '\\'
      · subst h2
        have hstep : ∀ X, scanJStringF (f + 1) ('\\' :: '\\' :: X) =
            (scanJStringF f X).map (fun p => ('\\' :: p.1, p.2)) := fun _ => rfl
        rw [show escapeJChar '\\' = ['\\', '\\'] from rfl, List.cons_append,
          List.cons_append, List.nil_append, hstep, ih f rest htail]
        rfl
      by_cases h3 : c = '\n'
      · subst h3
        have hstep : ∀ X, scanJStringF (f + 1) ('\\' :: 'n' :: X) =
            (scanJStringF f X).map (fun p => ('\n' :: p.1, p.2)) := fun _ => rfl
        rw [show escapeJChar '\n' = ['\\', 'n'] from rfl, List.cons_append,
          List.cons_append, List.nil_append, hstep, ih f rest htail]
        rfl
      by_cases h4 : c = Char.ofNat 13
      · subst h4
        have hstep : ∀ X, scanJStringF (f + 1) ('\\' :: 'r' :: X) =
            (scanJStringF f X).map (fun p => (Char.ofNat 13 :: p.1, p.2)) := fun _ => rfl
        rw [show escapeJChar (Char.ofNat 13) = ['\\', 'r'] from rfl, List.cons_append,
          List.cons_append, List.nil_append, hstep, ih f rest htail]
        rfl
      by_cases h5 : c = '\t'
      · subst h5
        have hstep : ∀ X, scanJStringF (f + 1) ('\\' :: 't' :: X) =
            (scanJStringF f X).map (fun p => ('\t' :: p.1, p.2)) := fun _ => rfl
        rw [show escapeJChar '\t' = ['\\', 't'] from rfl, List.cons_append,
          List.cons_append, List.nil_append, hstep, ih f rest htail]
        rfl
      by_cases h6 : c = Char.ofNat 8
      · subst h6
        have hstep : ∀ X, scanJStringF (f + 1) ('\\' :: 'b' :: X) =
            (scanJStringF f X).map (fun p => (Char.ofNat 8 :: p.1, p.2)) := fun _ => rfl
        rw [show escapeJChar (Char.ofNat 8) = ['\\', 'b'] from rfl, List.cons_append,
          List.cons_append, List.nil_append, hstep, ih f rest htail]
        rfl
      by_cases h7 : c = Char.ofNat 12
      · subst h7
        have hstep : ∀ X, scanJStringF (f + 1) ('\\' :: 'f' :: X) =
            (scanJStringF f X).map (fun p => (Char.ofNat 12 :: p.1, p.2)) := fun _ => rfl
        rw [show escapeJChar (Char.ofNat 12) = ['\\', 'f'] from rfl, List.cons_append,
          List.cons_append, List.nil_append, hstep, ih f rest htail]
        rfl
      by_cases h8 : 0x20 ≤ c.toNat ∧ c.toNat ≤ 0x7e
      · -- printable ASCII is kept verbatim
        have hlt : ¬ c.toNat < 0x20 := by omega
        simp only [escapeJChar, if_neg h1, if_neg h2, if_neg h3, if_neg h4,
          if_neg h5, if_neg h6, if_neg h7, if_pos h8, List.cons_append,
          List.nil_append]
        simp only [scanJStringF, if_neg h1, if_neg h2, if_neg hlt]
        rw [ih f rest htail]
        rfl
      by_cases h9 : c.toNat < 0x10000
      · -- one `\uXXXX` escape
        have hval := char_toNat_valid c
        have hns : ¬ (0xD800 ≤ c.toNat ∧ c.toNat ≤ 0xDBFF) := by omega
        have hstep : ∀ (a b c2 d : Char) (X : List Char),
            scanJStringF (f + 1) ('\\' :: 'u' :: a :: b :: c2 :: d :: X) =
              (hex4 a b c2 d).bind fun v =>
                (surrLook v X).bind fun pr =>
                  (scanJStringF f pr.2).map
                    (fun p => (Char.ofNat pr.1 :: p.1, p.2)) :=
          fun _ _ _ _ _ => rfl
        have hsl0 : surrLook c.toNat (escapeJString tail ++ '"' :: rest) =
            some (c.toNat, escapeJString tail ++ '"' :: rest) := by
          simp only [surrLook, if_neg hns]
        simp only [escapeJChar, if_neg h1, if_neg h2, if_neg h3, if_neg h4,
          if_neg h5, if_neg h6, if_neg h7, if_neg h8, if_pos h9, hex4Chars,
          List.cons_append, List.nil_append]
        rw [hstep, hex4_hex4Chars h9, Option.some_bind, hsl0, Option.some_bind,
          ih f rest htail]
        simp [Char.ofNat_toNat]
      · -- a surrogate pair, two `\uXXXX` escapes
        have hval := char_toNat_valid c
        have hmod : (c.toNat - 0x10000) % 0x400 < 0x400 :=
          Nat.mod_lt _ (by norm_num)
        have hdiv : (c.toNat - 0x10000) / 0x400 ≤ 0x3FF := by omega
        have hhi : 0xD800 ≤ 0xD800 + (c.toNat - 0x10000) / 0x400 ∧
            0xD800 + (c.toNat - 0x10000) / 0x400 ≤ 0xDBFF := by omega
        have hlo : 0xDC00 ≤ 0xDC00 + (c.toNat - 0x10000) % 0x400 ∧
            0xDC00 + (c.toNat - 0x10000) % 0x400 ≤ 0xDFFF := by omega
        have hhi16 : 0xD800 + (c.toNat - 0x10000) / 0x400 < 65536 := by omega
        have hlo16 : 0xDC00 + (c.toNat - 0x10000) % 0x400 < 65536 := by omega
        have hstep : ∀ (a b c2 d : Char) (X : List Char),
            scanJStringF (f + 1) ('\\' :: 'u' :: a :: b :: c2 :: d :: X) =
              (hex4 a b c2 d).bind fun v =>
                (surrLook v X).bind fun pr =>
                  (scanJStringF f pr.2).map
                    (fun p => (Char.ofNat pr.1 :: p.1, p.2)) :=
          fun _ _ _ _ _ => rfl
        have hsl : ∀ (g1 g2 g3 g4 : Char) (X : List Char),
            hex4 g1 g2 g3 g4 = some (0xDC00 + (c.toNat - 0x10000) % 0x400) →
            surrLook (0xD800 + (c.toNat - 0x10000) / 0x400)
                ('\\' :: 'u' :: g1 :: g2 :: g3 :: g4 :: X) =
              some (c.toNat, X) := by
          intro g1 g2 g3 g4 X hg
          simp only [surrLook, if_pos hhi, hg, if_pos hlo]
          have hfin : 0x10000 +
              (0xD800 + (c.toNat - 0x10000) / 0x400 - 0xD800) * 0x400 +
              (0xDC00 + (c.toNat - 0x10000) % 0x400 - 0xDC00) = c.toNat := by
            have hd := Nat.div_add_mod (c.toNat - 0x10000) 0x400
            omega
          rw [hfin]
        simp only [escapeJChar, if_neg h1, if_neg h2, if_neg h3, if_neg h4,
          if_neg h5, if_neg h6, if_neg h7, if_neg h8, if_neg h9, hex4Chars,
          List.cons_append, List.nil_append, List.append_assoc]
        rw [hstep, hex4_hex4Chars hhi16, Option.some_bind,
          hsl _ _ _ _ _ (hex4_hex4Chars hlo16), Option.some_bind, ih f rest htail]
        simp [Char.ofNat_toNat]

theorem escapeJChar_length_pos (c : Char) : 0 < (escapeJChar c).length := by
  unfold escapeJChar
  repeat' split
  all_goals simp

theorem length_le_escapeJString (s : List Char) :
    s.length ≤ (escapeJString s).length := by
  induction s with
  | nil => simp [escapeJString]
  | cons c tail ih =>
    have h := escapeJChar_length_pos c
    simp only [escapeJString, List.map_cons, List.flatten_cons, List.length_append,
      List.length_cons]
    simp only [escapeJString] at ih
    omega

/-- The scan of an escaped string body, at the fuel `scanJString` chooses. -/
theorem scanJString_escape (s rest : List Char) :
    scanJString (escapeJString s ++ '"' :: rest) = some (s, rest) := by
  apply scanJStringF_escape
  have h := length_le_escapeJString s
  simp only [List.length_append, List.length_cons]
  omega

theorem skipWs_cons_of_neg {c : Char} (t : List Char) (h : isJsonWs c = false) :
    skipWs (c :: t) = c :: t := by
  simp [skipWs, List.dropWhile_cons, h]

theorem skipWs_space (t : List Char) : skipWs (' ' :: t) = skipWs t := by
  simp [skipWs, List.dropWhile_cons, isJsonWs]

theorem skipWs_dumpOptStr (v : Option (List Char)) (rest : List Char) :
    skipWs (dumpOptStr v ++ rest) = dumpOptStr v ++ rest := by
  cases v <;> rfl

/-- Parsing the serialized form of one optional-string field. -/
theorem parseValue_dumpOptStr (f : Nat) (v : Option (List Char))
    (rest : List Char) :
    parseValue (f + 1) (dumpOptStr v ++ rest) = some (jval v, rest) := by
  cases v with
  | none => rfl
  | some s =>
    have h : dumpOptStr (some s) ++ rest = '"' :: (escapeJString s ++ '"' :: rest) := by
      simp [dumpOptStr]
    rw [h]
    have hstep : parseValue (f + 1) ('"' :: (escapeJString s ++ '"' :: rest)) =
        (scanJString (escapeJString s ++ '"' :: rest)).map
          (fun p => (Json.str p.1, p.2)) := rfl
    rw [hstep, scanJString_escape]
    rfl

/-- One member of the object `to_json` writes: scan the key (printable, no
escapes), the `": "` separator, the field's value, and hand the remainder to
the caller's continuation analysis. -/
theorem parseMembers_step (f : Nat) (key : List Char)
    (hkey : escapeJString key = key) (v : Option (List Char))
    (rest : List Char) (acc : List (List Char × Json)) :
    parseMembers (f + 2) (key ++ '"' :: ':' :: ' ' :: (dumpOptStr v ++ rest)) acc =
      (match skipWs rest with
        | ',' :: s4 =>
          (match skipWs s4 with
            | '"' :: s5 => parseMembers (f + 1) s5 (acc ++ [(key, jval v)])
            | _ => none)
        | '}' :: s4 => some (acc ++ [(key, jval v)], s4)
        | _ => none) := by
  have hscan : scanJString (key ++ '"' :: ':' :: ' ' :: (dumpOptStr v ++ rest)) =
      some (key, ':' :: ' ' :: (dumpOptStr v ++ rest)) := by
    conv_lhs => rw [← hkey]
    exact scanJString_escape key _
  simp only [parseMembers, hscan]
  rw [skipWs_cons_of_neg _ (by rfl)]
  simp only
  rw [skipWs_space, skipWs_dumpOptStr, parseValue_dumpOptStr f v rest]

/-- `parseMembers_step` when the field is followed by `, "` and another key. -/
theorem parseMembers_step_comma (f : Nat) (key : List Char)
    (hkey : escapeJString key = key) (v : Option (List Char)) (s5 : List Char)
    (acc : List (List Char × Json)) :
    parseMembers (f + 2)
        (key ++ '"' :: ':' :: ' ' :: (dumpOptStr v ++ (',' :: ' ' :: '"' :: s5))) acc =
      parseMembers (f + 1) s5 (acc ++ [(key, jval v)]) := by
  rw [parseMembers_step f key hkey v _ acc]
  rfl

/-- `parseMembers_step` when the field is the last one, followed by `}`. -/
theorem parseMembers_step_close (f : Nat) (key : List Char)
    (hkey : escapeJString key = key) (v : Option (List Char))
    (acc : List (List Char × Json)) :
    parseMembers (f + 2) (key ++ '"' :: ':' :: ' ' :: (dumpOptStr v ++ ['}'])) acc =
      some (acc ++ [(key, jval v)], []) := by
  rw [parseMembers_step f key hkey v _ acc]
  rfl

/-- The scanner on the exact object `to_json` emits. -/
theorem parseValue_toJson (k : Nat) (r : Response) :
    parseValue (k + 8) (toJson r) =
      some (.obj [("content".toList, jval r.content),
        ("command".toList, jval r.command), ("error".toList, jval r.error)], []) := by
  obtain ⟨c, m, e⟩ := r
  have h0 : toJson ⟨c, m, e⟩ = '{' :: '"' :: ("content".toList ++ '"' :: ':' :: ' ' ::
      (dumpOptStr c ++ (',' :: ' ' :: '"' :: ("command".toList ++ '"' :: ':' :: ' ' ::
        (dumpOptStr m ++ (',' :: ' ' :: '"' :: ("error".toList ++ '"' :: ':' :: ' ' ::
          (dumpOptStr e ++ ['}'])))))))) := by
    simp [toJson]
  have hstep1 : ∀ X, parseValue (k + 8) ('{' :: X) =
      (parseObject (k + 7) X).map (fun p => (Json.obj p.1, p.2)) := fun _ => rfl
  have hstep2 : ∀ Y, parseObject (k + 7) ('"' :: Y) = parseMembers (k + 6) Y [] :=
    fun _ => rfl
  rw [h0, hstep1, hstep2]
  rw [show k + 6 = (k + 4) + 2 from rfl,
    parseMembers_step_comma (k + 4) "content".toList rfl c _ []]
  rw [show k + 4 + 1 = (k + 3) + 2 from rfl,
    parseMembers_step_comma (k + 3) "command".toList rfl m _ _]
  rw [show k + 3 + 1 = (k + 2) + 2 from rfl,
    parseMembers_step_close (k + 2) "error".toList rfl e _]
  rfl

/-- `json.loads` recovers the three-field object from `to_json`'s output. -/
theorem loads_toJson (r : Response) :
    loads (toJson r) = some (.obj [("content".toList, jval r.content),
      ("command".toList, jval r.command), ("error".toList, jval r.error)]) := by
  unfold loads
  have hskip : skipWs (toJson r) = toJson r := by
    rcases r with ⟨c, m, e⟩
    rfl
  have hlen : 12 ≤ (toJson r).length := by
    rcases r with ⟨c, m, e⟩
    simp only [toJson, List.length_append]
    have h12 : ("\x7b\"content\": ".toList).length = 12 := rfl
    omega
  obtain ⟨k, hk⟩ : ∃ k, 3 * (toJson r).length + 3 = k + 8 :=
    ⟨3 * (toJson r).length - 5, by omega⟩
  rw [hskip, hk, parseValue_toJson k r]
  rfl

/-- Claim C10: the serialization round trip.  For every `Response` whose
`content`, `command` and `error` fields are each `None` or an arbitrary
string, `Response.from_json(r.to_json())` succeeds and rebuilds exactly `r`:
string fields come back as the same strings and `None` fields come back as
`None` (Python equality of the dataclasses). -/
theorem response_round_trip (r : Response) :
    fromJson (toJson r) =
      .ok ⟨r.content.map Json.str, r.command.map Json.str, r.error.map Json.str⟩ := by
  unfold fromJson
  rw [loads_toJson r]
  obtain ⟨c, m, e⟩ := r
  cases c <;> cases m <;> cases e <;> rfl

/-! ## Claim C1 — fragmentation invariance

Helper lemmas first: the four ways a `print_chunk` call can act on a buffer
of the canonical shapes, then the simulation argument over an arbitrary safe
fragmentation. -/

theorem bnot_isEmpty_eq_decide (l : List Char) : (!l.isEmpty) = decide (l ≠ []) := by
  cases l <;> simp

theorem isEmpty_take_or (l : List Char) (n m : Nat) (h : n ≤ m) :
    ((!(l.take n).isEmpty) || !((l.take m).drop n).isEmpty) = !(l.take m).isEmpty := by
  conv_rhs => rw [← List.take_append_drop n (l.take m)]
  rw [List.take_take, min_eq_left h]
  generalize l.take n = x
  generalize (l.take m).drop n = y
  cases x <;> cases y <;> simp

theorem printUnescaped_bsfree (st : PrinterState) (s : List Char) (h : '\\' ∉ s) :
    printUnescaped st s =
      (⟨st.printing_contents, st.accumulated_chunk,
        st.something_printed || !s.isEmpty⟩, s) := by
  by_cases hs : s = []
  · subst hs
    simp [printUnescaped, unescapeOrRaw_of_no_backslash h]
  · simp [printUnescaped, unescapeOrRaw_of_no_backslash h, hs,
      List.isEmpty_iff, Bool.or_true]

/-- EMITTING over a marker-free, backslash-free chunk: print all, keep going. -/
theorem continue_plain (z : List Char) (hq : '"' ∉ z) (hb : '\\' ∉ z) (sp : Bool) :
    continuePrintingContent ⟨true, z, sp⟩ = (⟨true, [], sp || !z.isEmpty⟩, z) := by
  have hidx : firstIdx endMarker z = none := firstIdx_none_of_quote_free hq rfl
  have h1 : ¬ (endMarker.take 1).isSuffixOf z := by
    intro h
    exact hq ((List.isSuffixOf_iff_suffix.mp h).mem (by decide))
  have h2 : ¬ (endMarker.take 2).isSuffixOf z := by
    intro h
    exact hq ((List.isSuffixOf_iff_suffix.mp h).mem (by decide))
  have h3 : ¬ ['\\'].isSuffixOf z := by
    intro h
    exact hb ((List.isSuffixOf_iff_suffix.mp h).mem (by decide))
  simp [continuePrintingContent, hidx, h1, h2, h3, printUnescaped_bsfree _ _ hb]

/-- EMITTING over a chunk whose last character starts the end marker: hold
the quote back and print the rest. -/
theorem continue_hold_quote (z : List Char) (hq : '"' ∉ z) (hb : '\\' ∉ z)
    (sp : Bool) :
    continuePrintingContent ⟨true, z ++ ['"'], sp⟩ =
      (⟨true, ['"'], sp || !z.isEmpty⟩, z) := by
  have hidx : firstIdx endMarker (z ++ ['"']) = none :=
    firstIdx_none_append_short hq rfl (by decide)
  have h1 : (endMarker.take 1).isSuffixOf (z ++ ['"']) := by
    rw [List.isSuffixOf_iff_suffix]
    exact ⟨z, rfl⟩
  have hbz : '\\' ∉ z ++ ['"'] := by
    intro h
    rcases List.mem_append.mp h with h | h
    · exact hb h
    · simp at h
  simp only [continuePrintingContent, hidx, h1, if_pos, List.length_append,
    List.length_cons, List.length_nil]
  rw [show z.length + (0 + 1) - 1 = z.length from by omega]
  rw [List.take_left, List.drop_left]
  rw [printUnescaped_bsfree _ _ hb]

/-- EMITTING over a chunk that contains the full end marker: print the part
before it, drop the marker, stop emitting, keep the remainder. -/
theorem continue_finish (z w : List Char) (hq : '"' ∉ z) (hb : '\\' ∉ z)
    (sp : Bool) :
    continuePrintingContent ⟨true, z ++ (endMarker ++ w), sp⟩ =
      (⟨false, w, sp || !z.isEmpty⟩, z) := by
  have hidx : firstIdx endMarker (z ++ (endMarker ++ w)) = some z.length :=
    firstIdx_append_marker hq rfl
  have htake : (z ++ (endMarker ++ w)).take z.length = z := List.take_left z _
  have hdrop : (z ++ (endMarker ++ w)).drop z.length = endMarker ++ w :=
    List.drop_left z _
  have hlen : endMarker.length ≤ (endMarker ++ w).length := by
    simp
  simp only [continuePrintingContent, hidx, htake, hdrop,
    printUnescaped_bsfree _ _ hb, hlen, if_pos, List.drop_left]

/-- EMITTING with the held quote, next characters completing the end marker. -/
theorem continue_after_quote (w : List Char) (sp : Bool) :
    continuePrintingContent ⟨true, '"' :: ',' :: w, sp⟩ = (⟨false, w, sp⟩, []) := by
  have h := continue_finish [] w (by simp) (by simp) sp
  simpa [endMarker] using h

/-- SEARCHING with no occurrence of the start marker: keep everything. -/
theorem start_not_found (z : List Char) (h : firstIdx startMarker z = none)
    (sp : Bool) :
    startPrintingContent ⟨false, z, sp⟩ = (⟨false, z, sp⟩, []) := by
  simp [startPrintingContent, h]

/-- SEARCHING with the start marker completed but no end marker yet: print
the partial payload and switch to EMITTING with an empty buffer. -/
theorem start_found_no_end (pre pp : List Char) (hpre : '"' ∉ pre)
    (hppq : '"' ∉ pp) (hppb : '\\' ∉ pp) (sp : Bool) :
    startPrintingContent ⟨false, pre ++ (startMarker ++ pp), sp⟩ =
      (⟨true, [], sp || !pp.isEmpty⟩, pp) := by
  have hidx : firstIdx startMarker (pre ++ (startMarker ++ pp)) = some pre.length :=
    firstIdx_append_marker hpre rfl
  have hsm : startMarker.length = 12 := rfl
  have hdrop : (pre ++ (startMarker ++ pp)).drop (pre.length + 12) = pp := by
    rw [← List.append_assoc]
    rw [show pre.length + 12 = (pre ++ startMarker).length from by
      simp [hsm]]
    exact List.drop_left _ _
  have hfind : findFrom endMarker (pre ++ (startMarker ++ pp))
      (pre.length + 12) = none := by
    unfold findFrom
    rw [hdrop, @firstIdx_none_of_quote_free endMarker _ hppq (by rfl)]
    rfl
  simp only [startPrintingContent, hidx, hsm, hfind, hdrop,
    printUnescaped_bsfree _ _ hppb]

/-- SEARCHING with both markers present: print the whole payload, consume
through the end marker, return to SEARCHING with the remainder retained. -/
theorem start_found_with_end (pre P w : List Char) (hpre : '"' ∉ pre)
    (hP : '"' ∉ P) (hPb : '\\' ∉ P) (sp : Bool) :
    startPrintingContent ⟨false, pre ++ (startMarker ++ (P ++ (endMarker ++ w))), sp⟩ =
      (⟨false, w, sp || !P.isEmpty⟩, P) := by
  have hidx : firstIdx startMarker
      (pre ++ (startMarker ++ (P ++ (endMarker ++ w)))) = some pre.length :=
    firstIdx_append_marker hpre rfl
  have hsm : startMarker.length = 12 := rfl
  have hdrop : (pre ++ (startMarker ++ (P ++ (endMarker ++ w)))).drop
      (pre.length + 12) = P ++ (endMarker ++ w) := by
    rw [← List.append_assoc]
    rw [show pre.length + 12 = (pre ++ startMarker).length from by simp [hsm]]
    exact List.drop_left _ _
  have hfind : findFrom endMarker (pre ++ (startMarker ++ (P ++ (endMarker ++ w))))
      (pre.length + 12) = some (P.length + (pre.length + 12)) := by
    unfold findFrom
    rw [hdrop, @firstIdx_append_marker endMarker _ _ hP (by rfl)]
    rfl
  have hslice : slice (pre ++ (startMarker ++ (P ++ (endMarker ++ w))))
      (pre.length + 12) (P.length + (pre.length + 12)) = P := by
    unfold slice
    rw [hdrop, show P.length + (pre.length + 12) - (pre.length + 12) = P.length
      from by omega]
    exact List.take_left P _
  have hem : endMarker.length = 2 := rfl
  have hdrop2 : (pre ++ (startMarker ++ (P ++ (endMarker ++ w)))).drop
      (P.length + (pre.length + 12) + 2) = w := by
    rw [show pre ++ (startMarker ++ (P ++ (endMarker ++ w))) =
      (pre ++ startMarker ++ P ++ endMarker) ++ w from by simp]
    rw [show P.length + (pre.length + 12) + 2 =
      (pre ++ startMarker ++ P ++ endMarker).length from by simp [hsm, hem]; omega]
    exact List.drop_left _ _
  simp only [startPrintingContent, hidx, hsm, hfind, hslice, hem, hdrop2,
    printUnescaped_bsfree _ _ hPb]

theorem take_append_seg (l : List Char) (k1 k2 : Nat) (h : k1 ≤ k2) :
    l.take k1 ++ (l.drop k1).take (k2 - k1) = l.take k2 := by
  conv_rhs => rw [show k2 = k1 + (k2 - k1) from by omega, List.take_add]

theorem isEmpty_take_drop_or (l : List Char) (n : Nat) (h : n ≤ l.length) :
    ((!(l.take n).isEmpty) || !(l.drop n).isEmpty) = !l.isEmpty := by
  have h1 := isEmpty_take_or l n l.length h
  simpa [List.take_length] using h1

theorem extractorText_take_lt (pre P suf : List Char) (k : Nat)
    (hk : k < pre.length + 12) :
    (extractorText pre P suf).take k =
      pre.take k ++ startMarker.take (k - pre.length) := by
  unfold extractorText
  rw [List.take_append_eq_append_take]
  congr 1
  rw [List.take_append_eq_append_take]
  have hsm : startMarker.length = 12 := rfl
  rw [show k - pre.length - startMarker.length = 0 from by omega, List.take_zero,
    List.append_nil]

theorem extractorText_take_mid (pre P suf : List Char) (k : Nat)
    (h1 : pre.length + 12 ≤ k) (h2 : k ≤ pre.length + 12 + P.length) :
    (extractorText pre P suf).take k =
      pre ++ (startMarker ++ P.take (k - (pre.length + 12))) := by
  have hsm : startMarker.length = 12 := rfl
  unfold extractorText
  rw [List.take_append_eq_append_take,
    List.take_of_length_le (by omega : pre.length ≤ k)]
  congr 1
  rw [List.take_append_eq_append_take,
    List.take_of_length_le (by omega : startMarker.length ≤ k - pre.length), hsm]
  congr 1
  rw [List.take_append_eq_append_take,
    show k - pre.length - 12 - P.length = 0 from by omega, List.take_zero,
    List.append_nil]
  congr 1 <;> omega

theorem extractorText_take_ge (pre P suf : List Char) (k : Nat)
    (h1 : pre.length + 12 + P.length + 2 ≤ k) :
    (extractorText pre P suf).take k =
      pre ++ (startMarker ++ (P ++ (endMarker ++
        suf.take (k - (pre.length + 12 + P.length + 2))))) := by
  have hsm : startMarker.length = 12 := rfl
  have hem : endMarker.length = 2 := rfl
  unfold extractorText
  rw [List.take_append_eq_append_take,
    List.take_of_length_le (by omega : pre.length ≤ k)]
  congr 1
  rw [List.take_append_eq_append_take,
    List.take_of_length_le (by omega : startMarker.length ≤ k - pre.length), hsm]
  congr 1
  rw [List.take_append_eq_append_take,
    List.take_of_length_le (by omega : P.length ≤ k - pre.length - 12)]
  congr 1
  rw [List.take_append_eq_append_take,
    List.take_of_length_le (by omega : endMarker.length ≤ k - pre.length - 12 - P.length),
    hem]
  congr 2
  omega

theorem extractorText_drop_mid (pre P suf : List Char) (k : Nat)
    (h1 : pre.length + 12 ≤ k) (h2 : k ≤ pre.length + 12 + P.length) :
    (extractorText pre P suf).drop k =
      P.drop (k - (pre.length + 12)) ++ (endMarker ++ suf) := by
  have hsm : startMarker.length = 12 := rfl
  unfold extractorText
  rw [List.drop_append_eq_append_drop,
    List.drop_eq_nil_of_le (by omega : pre.length ≤ k), List.nil_append]
  rw [List.drop_append_eq_append_drop,
    List.drop_eq_nil_of_le (by omega : startMarker.length ≤ k - pre.length), hsm,
    List.nil_append]
  rw [List.drop_append_eq_append_drop,
    show k - pre.length - 12 - P.length = 0 from by omega, List.drop_zero]
  congr 2 <;> omega

theorem printChunk_false_eq (buf seg : List Char) (sp : Bool) :
    printChunk ⟨false, buf, sp⟩ seg = startPrintingContent ⟨false, buf ++ seg, sp⟩ :=
  rfl

theorem printChunk_true_eq (buf seg : List Char) (sp : Bool) :
    printChunk ⟨true, buf, sp⟩ seg = continuePrintingContent ⟨true, buf ++ seg, sp⟩ :=
  rfl

theorem extractorText_drop_b1 (pre P suf : List Char) :
    (extractorText pre P suf).drop (pre.length + 12 + P.length + 1) =
      ',' :: suf := by
  have hsm : startMarker.length = 12 := rfl
  unfold extractorText
  rw [List.drop_append_eq_append_drop,
    List.drop_eq_nil_of_le (by omega : pre.length ≤ pre.length + 12 + P.length + 1),
    List.nil_append]
  rw [List.drop_append_eq_append_drop, hsm,
    List.drop_eq_nil_of_le (by omega : (12 : Nat) ≤ pre.length + 12 + P.length + 1 - pre.length),
    List.nil_append]
  rw [List.drop_append_eq_append_drop,
    List.drop_eq_nil_of_le (by omega : P.length ≤ pre.length + 12 + P.length + 1 - pre.length - 12),
    List.nil_append]
  rw [List.drop_append_eq_append_drop,
    show pre.length + 12 + P.length + 1 - pre.length - 12 - P.length = 1 from by omega]
  rfl

theorem extractorText_drop_last (pre P suf : List Char) :
    (extractorText pre P suf).drop (pre.length + 12 + P.length + 2) = suf := by
  have hsm : startMarker.length = 12 := rfl
  have hem : endMarker.length = 2 := rfl
  unfold extractorText
  rw [List.drop_append_eq_append_drop,
    List.drop_eq_nil_of_le (by omega : pre.length ≤ pre.length + 12 + P.length + 2),
    List.nil_append]
  rw [List.drop_append_eq_append_drop, hsm,
    List.drop_eq_nil_of_le (by omega : (12 : Nat) ≤ pre.length + 12 + P.length + 2 - pre.length),
    List.nil_append]
  rw [List.drop_append_eq_append_drop,
    List.drop_eq_nil_of_le (by omega : P.length ≤ pre.length + 12 + P.length + 2 - pre.length - 12),
    List.nil_append]
  rw [List.drop_append_eq_append_drop,
    List.drop_eq_nil_of_le (by omega :
      endMarker.length ≤ pre.length + 12 + P.length + 2 - pre.length - 12 - P.length),
    List.nil_append,
    show pre.length + 12 + P.length + 2 - pre.length - 12 - P.length - endMarker.length = 0
      from by omega,
    List.drop_zero]

/-- One step of the simulation: feeding the characters of the logical text
between positions `k1` and `k2` to `print_chunk` in the state reached after
`k1` characters lands in the state for `k2` and prints exactly the payload
characters covered by the step, provided the fragment does not both complete
the start marker and stop one character into the end marker. -/
theorem printChunk_step (pre P suf : List Char)
    (hpre : '"' ∉ pre) (hPq : '"' ∉ P) (hPb : '\\' ∉ P) (hsuf : '"' ∉ suf)
    (k1 k2 : Nat) (hle : k1 ≤ k2)
    (hgood : ¬(k1 < pre.length + 12 ∧ k2 = pre.length + 12 + P.length + 1)) :
    printChunk (sigmaState pre P suf k1)
        (((extractorText pre P suf).drop k1).take (k2 - k1)) =
      (sigmaState pre P suf k2,
        (P.take (k2 - (pre.length + 12))).drop (k1 - (pre.length + 12))) := by
  have hsm : startMarker.length = 12 := rfl
  have hem : endMarker.length = 2 := rfl
  by_cases hk1a : k1 < pre.length + 12
  · -- state after k1: SEARCHING, everything retained
    have hσ1 : sigmaState pre P suf k1 =
        ⟨false, (extractorText pre P suf).take k1, false⟩ := by
      unfold sigmaState
      rw [if_pos hk1a]
    rw [hσ1, printChunk_false_eq, take_append_seg _ _ _ hle]
    by_cases hk2a : k2 < pre.length + 12
    · -- still searching
      have hnone : firstIdx startMarker ((extractorText pre P suf).take k2) = none := by
        rw [extractorText_take_lt pre P suf k2 hk2a]
        refine firstIdx_none_append_short ?_ rfl ?_
        · intro h
          exact hpre (List.mem_of_mem_take h)
        · rw [List.length_take, hsm]
          omega
      rw [start_not_found _ hnone]
      unfold sigmaState
      rw [if_pos hk2a,
        show k2 - (pre.length + 12) = 0 from by omega, List.take_zero, List.drop_nil]
    · by_cases hk2b : k2 ≤ pre.length + 12 + P.length
      · -- marker completed, no end yet: start emitting
        rw [extractorText_take_mid pre P suf k2 (by omega) hk2b,
          start_found_no_end pre _ hpre
            (fun h => hPq (List.mem_of_mem_take h))
            (fun h => hPb (List.mem_of_mem_take h)) false]
        unfold sigmaState
        rw [if_neg (by omega), if_pos hk2b, Bool.false_or,
          show k1 - (pre.length + 12) = 0 from by omega, List.drop_zero]
      · by_cases hk2c : k2 = pre.length + 12 + P.length + 1
        · exact absurd ⟨hk1a, hk2c⟩ hgood
        · -- both markers in one swallow: print the whole payload
          rw [extractorText_take_ge pre P suf k2 (by omega),
            start_found_with_end pre P _ hpre hPq hPb false]
          unfold sigmaState
          rw [if_neg (by omega), if_neg (by omega), if_neg (by omega)]
          rw [List.drop_take, extractorText_drop_last, Bool.false_or,
            List.take_of_length_le (by omega : P.length ≤ k2 - (pre.length + 12)),
            show k1 - (pre.length + 12) = 0 from by omega, List.drop_zero]
  · by_cases hk1b : k1 ≤ pre.length + 12 + P.length
    · -- state after k1: EMITTING with empty buffer
      have hσ1 : sigmaState pre P suf k1 =
          ⟨true, [], !(P.take (k1 - (pre.length + 12))).isEmpty⟩ := by
        unfold sigmaState
        rw [if_neg hk1a, if_pos hk1b]
      rw [hσ1, printChunk_true_eq, List.nil_append,
        extractorText_drop_mid pre P suf k1 (by omega) hk1b]
      by_cases hk2b : k2 ≤ pre.length + 12 + P.length
      · -- stay inside the payload
        have hseg : (P.drop (k1 - (pre.length + 12)) ++ (endMarker ++ suf)).take (k2 - k1)
            = (P.take (k2 - (pre.length + 12))).drop (k1 - (pre.length + 12)) := by
          rw [List.take_append_eq_append_take,
            show k2 - k1 - (P.drop (k1 - (pre.length + 12))).length = 0 from by
              rw [List.length_drop]; omega,
            List.take_zero, List.append_nil, List.drop_take,
            show k2 - (pre.length + 12) - (k1 - (pre.length + 12)) = k2 - k1 from by omega]
        rw [hseg, continue_plain _
          (fun h => hPq (List.mem_of_mem_take (List.mem_of_mem_drop h)))
          (fun h => hPb (List.mem_of_mem_take (List.mem_of_mem_drop h)))]
        unfold sigmaState
        rw [if_neg (by omega), if_pos hk2b,
          isEmpty_take_or P (k1 - (pre.length + 12)) (k2 - (pre.length + 12)) (by omega)]
      · by_cases hk2c : k2 = pre.length + 12 + P.length + 1
        · -- end exactly one character into the end marker: hold the quote
          have hseg : (P.drop (k1 - (pre.length + 12)) ++ (endMarker ++ suf)).take (k2 - k1)
              = P.drop (k1 - (pre.length + 12)) ++ ['"'] := by
            rw [List.take_append_eq_append_take,
              List.take_of_length_le (by rw [List.length_drop]; omega)]
            congr 1
            rw [show k2 - k1 - (P.drop (k1 - (pre.length + 12))).length = 1 from by
              rw [List.length_drop]; omega]
            rfl
          rw [hseg, continue_hold_quote _
            (fun h => hPq (List.mem_of_mem_drop h))
            (fun h => hPb (List.mem_of_mem_drop h))]
          unfold sigmaState
          rw [if_neg (by omega), if_neg (by omega), if_pos hk2c,
            isEmpty_take_drop_or P _ (by omega),
            List.take_of_length_le (by omega : P.length ≤ k2 - (pre.length + 12))]
        · -- cross the whole end marker
          have hseg : (P.drop (k1 - (pre.length + 12)) ++ (endMarker ++ suf)).take (k2 - k1)
              = P.drop (k1 - (pre.length + 12)) ++ (endMarker ++
                  suf.take (k2 - (pre.length + 12 + P.length + 2))) := by
            rw [List.take_append_eq_append_take,
              List.take_of_length_le (by rw [List.length_drop]; omega)]
            congr 1
            rw [List.take_append_eq_append_take,
              List.take_of_length_le (by rw [hem, List.length_drop]; omega)]
            congr 2
            rw [List.length_drop, hem]
            omega
          rw [hseg, continue_finish _ _
            (fun h => hPq (List.mem_of_mem_drop h))
            (fun h => hPb (List.mem_of_mem_drop h))]
          unfold sigmaState
          rw [if_neg (by omega), if_neg (by omega), if_neg hk2c,
            List.drop_take, extractorText_drop_last,
            isEmpty_take_drop_or P _ (by omega),
            List.take_of_length_le (by omega : P.length ≤ k2 - (pre.length + 12))]
    · by_cases hk1c : k1 = pre.length + 12 + P.length + 1
      · -- state after k1: holding the end marker's quote
        have hσ1 : sigmaState pre P suf k1 = ⟨true, ['"'], !P.isEmpty⟩ := by
          unfold sigmaState
          rw [if_neg hk1a, if_neg hk1b, if_pos hk1c]
        rw [hσ1, printChunk_true_eq]
        by_cases hk2e : k2 = k1
        · -- empty step: nothing changes
          rw [show k2 - k1 = 0 from by omega, List.take_zero, List.append_nil]
          have h := continue_hold_quote [] (by simp) (by simp) (!P.isEmpty)
          simp only [List.nil_append, List.isEmpty_nil, Bool.not_true, Bool.or_false] at h
          rw [h]
          unfold sigmaState
          rw [if_neg (by omega : ¬k2 < pre.length + 12),
            if_neg (by omega : ¬k2 ≤ pre.length + 12 + P.length),
            if_pos (by omega : k2 = pre.length + 12 + P.length + 1),
            List.take_of_length_le (by omega : P.length ≤ k2 - (pre.length + 12)),
            List.drop_eq_nil_of_le (by omega : P.length ≤ k1 - (pre.length + 12))]
        · -- the comma arrives: drop the held quote and the comma, back to SEARCHING
          have hseg : ((extractorText pre P suf).drop k1).take (k2 - k1)
              = ',' :: suf.take (k2 - (pre.length + 12 + P.length + 2)) := by
            rw [hk1c, extractorText_drop_b1,
              show k2 - (pre.length + 12 + P.length + 1) =
                (k2 - (pre.length + 12 + P.length + 2)) + 1 from by omega]
            rfl
          rw [hseg,
            show ['"'] ++ (',' :: suf.take (k2 - (pre.length + 12 + P.length + 2))) =
              '"' :: ',' :: suf.take (k2 - (pre.length + 12 + P.length + 2)) from rfl,
            continue_after_quote]
          unfold sigmaState
          rw [if_neg (by omega), if_neg (by omega), if_neg (by omega),
            List.drop_take, extractorText_drop_last,
            List.take_of_length_le (by omega : P.length ≤ k2 - (pre.length + 12)),
            List.drop_eq_nil_of_le (by omega : P.length ≤ k1 - (pre.length + 12))]
      · -- state after k1: SEARCHING again over the suffix
        have hk1d : pre.length + 12 + P.length + 2 ≤ k1 := by omega
        have hσ1 : sigmaState pre P suf k1 =
            ⟨false, ((extractorText pre P suf).take k1).drop
              (pre.length + 12 + P.length + 2), !P.isEmpty⟩ := by
          unfold sigmaState
          rw [if_neg hk1a, if_neg hk1b, if_neg hk1c]
        rw [hσ1, printChunk_false_eq, List.drop_take, extractorText_drop_last,
          show (extractorText pre P suf).drop k1 =
            suf.drop (k1 - (pre.length + 12 + P.length + 2)) from by
              conv_lhs => rw [show k1 = (pre.length + 12 + P.length + 2) +
                (k1 - (pre.length + 12 + P.length + 2)) from by omega, ← List.drop_drop,
                extractorText_drop_last],
          show k2 - k1 = (k2 - (pre.length + 12 + P.length + 2)) -
            (k1 - (pre.length + 12 + P.length + 2)) from by omega,
          take_append_seg suf _ _ (by omega)]
        have hnone : firstIdx startMarker
            (suf.take (k2 - (pre.length + 12 + P.length + 2))) = none :=
          firstIdx_none_of_quote_free (fun h => hsuf (List.mem_of_mem_take h)) rfl
        rw [start_not_found _ hnone]
        unfold sigmaState
        rw [if_neg (by omega), if_neg (by omega), if_neg (by omega),
          List.drop_take, extractorText_drop_last,
          List.drop_eq_nil_of_le (by rw [List.length_take]; omega :
            (P.take (k2 - (pre.length + 12))).length ≤ k1 - (pre.length + 12))]

theorem take_drop_chain (P : List Char) (n1 n2 n3 : Nat) (h12 : n1 ≤ n2)
    (h23 : n2 ≤ n3) :
    (P.take n2).drop n1 ++ (P.take n3).drop n2 = (P.take n3).drop n1 := by
  by_cases hP : n1 ≤ P.length
  · have hsplit : P.take n3 = P.take n2 ++ (P.take n3).drop n2 := by
      conv_lhs => rw [← List.take_append_drop n2 (P.take n3)]
      rw [List.take_take, min_eq_left h23]
    calc (P.take n2).drop n1 ++ (P.take n3).drop n2
        = (P.take n2 ++ (P.take n3).drop n2).drop n1 := by
          rw [List.drop_append_eq_append_drop,
            show n1 - (P.take n2).length = 0 from by rw [List.length_take]; omega,
            List.drop_zero]
      _ = (P.take n3).drop n1 := by rw [← hsplit]
  · rw [List.drop_eq_nil_of_le (by rw [List.length_take]; omega),
      List.drop_eq_nil_of_le (by rw [List.length_take]; omega),
      List.drop_eq_nil_of_le (by rw [List.length_take]; omega)]
    rfl

/-- The simulation, iterated over a whole safe fragmentation of the tail of
the logical text starting at position `k`. -/
theorem processChunks_sigma (pre P suf : List Char)
    (hpre : '"' ∉ pre) (hPq : '"' ∉ P) (hPb : '\\' ∉ P) (hsuf : '"' ∉ suf) :
    ∀ (frags : List (List Char)) (k : Nat),
      frags.flatten = (extractorText pre P suf).drop k →
      GoodSplit (pre.length + 12) (pre.length + 12 + P.length + 1) k frags = true →
      processChunks (sigmaState pre P suf k) frags =
        (sigmaState pre P suf (k + (frags.map List.length).sum),
          (P.take (k + (frags.map List.length).sum - (pre.length + 12))).drop
            (k - (pre.length + 12)))
  | [], k, _, _ => by
    show (sigmaState pre P suf k, ([] : List Char)) = _
    rw [show (([] : List (List Char)).map List.length).sum = 0 from rfl, Nat.add_zero,
      List.drop_eq_nil_of_le (by rw [List.length_take]; omega :
        (P.take (k - (pre.length + 12))).length ≤ k - (pre.length + 12))]
  | c :: cs, k, hjoin, hgood => by
    have hjc : c ++ cs.flatten = (extractorText pre P suf).drop k := by
      simpa using hjoin
    have hc : c = ((extractorText pre P suf).drop k).take c.length := by
      rw [← hjc, List.take_left]
    have hcs : cs.flatten = (extractorText pre P suf).drop (k + c.length) := by
      rw [show (extractorText pre P suf).drop (k + c.length) =
        ((extractorText pre P suf).drop k).drop c.length from (List.drop_drop _ _ _).symm,
        ← hjc, List.drop_left]
    have hg1 : ¬(k < pre.length + 12 ∧
        k + c.length = pre.length + 12 + P.length + 1) := by
      intro hab
      simp [GoodSplit, hab.1, hab.2] at hgood
    have hg2 : GoodSplit (pre.length + 12) (pre.length + 12 + P.length + 1)
        (k + c.length) cs = true := by
      simp only [GoodSplit, Bool.and_eq_true] at hgood
      exact hgood.2
    have hstep : printChunk (sigmaState pre P suf k) c =
        (sigmaState pre P suf (k + c.length),
          (P.take (k + c.length - (pre.length + 12))).drop (k - (pre.length + 12))) := by
      conv_lhs => rw [hc]
      have h := printChunk_step pre P suf hpre hPq hPb hsuf k (k + c.length)
        (by omega) hg1
      rw [show k + c.length - k = c.length from by omega] at h
      exact h
    have hpc : processChunks (sigmaState pre P suf k) (c :: cs) =
        ((processChunks (printChunk (sigmaState pre P suf k) c).1 cs).1,
          (printChunk (sigmaState pre P suf k) c).2 ++
            (processChunks (printChunk (sigmaState pre P suf k) c).1 cs).2) := rfl
    rw [hpc, hstep]
    rw [processChunks_sigma pre P suf hpre hPq hPb hsuf cs (k + c.length) hcs hg2]
    rw [show ((c :: cs).map List.length).sum = c.length + (cs.map List.length).sum
      from by simp only [List.map_cons, List.sum_cons], ← Nat.add_assoc]
    exact congrArg _ (take_drop_chain P _ _ _ (by omega) (by omega))

/-- C1, counterexample: fragmentation invariance fails.  The logical text
`"content": "hi",` fed whole prints `hi`, but split as
`"content": "hi"` + `,` — a boundary one character into the end marker —
prints `hi",`: `_start_printing_content` finds no full end marker in the
first fragment and prints everything after the start marker, including the
end marker's opening quote. -/
theorem fragmentation_dependence_counterexample :
    ["\"content\": \"hi\",".toList].flatten =
      ["\"content\": \"hi\"".toList, ",".toList].flatten ∧
    (processChunks initPrinter ["\"content\": \"hi\",".toList]).2 = "hi".toList ∧
    (processChunks initPrinter ["\"content\": \"hi\"".toList, ",".toList]).2 =
      "hi\",".toList ∧
    "hi".toList ≠ "hi\",".toList :=
  ⟨rfl, rfl, rfl, by decide⟩

/-- C1, amended: fragmentation invariance holds for payloads free of quotes
and backslashes, surrounded by quote-free prefix and suffix, as long as no
fragment both completes the start marker and ends exactly one character into
the end marker: every such fragmentation of the logical text prints exactly
the payload. -/
theorem fragmentation_invariance_amended (pre P suf : List Char)
    (hpre : '"' ∉ pre) (hPq : '"' ∉ P) (hPb : '\\' ∉ P) (hsuf : '"' ∉ suf)
    (frags : List (List Char))
    (hjoin : frags.flatten = extractorText pre P suf)
    (hgood : GoodSplit (pre.length + 12) (pre.length + 12 + P.length + 1) 0
      frags = true) :
    (processChunks initPrinter frags).2 = P := by
  have hσ0 : sigmaState pre P suf 0 = initPrinter := by
    unfold sigmaState initPrinter
    rw [if_pos (by omega : 0 < pre.length + 12), List.take_zero]
  have h := processChunks_sigma pre P suf hpre hPq hPb hsuf frags 0
    (by simpa using hjoin) hgood
  rw [hσ0] at h
  have hsum : (frags.map List.length).sum = (extractorText pre P suf).length := by
    rw [← List.length_flatten, hjoin]
  have hTlen : (extractorText pre P suf).length =
      pre.length + 12 + P.length + 2 + suf.length := by
    simp [extractorText, List.length_append]
    rw [show startMarker.length = 12 from rfl, show endMarker.length = 2 from rfl]
    omega
  rw [h, hsum, Nat.zero_add, Nat.zero_sub, List.drop_zero,
    List.take_of_length_le (by omega : P.length ≤
      (extractorText pre P suf).length - (pre.length + 12))]

/-- C1 witness: the text `"content": "hi",` split as
`"cont` + `ent": "h` + `i",` prints exactly `hi`. -/
theorem fragmentation_invariance_amended_witness :
    (processChunks initPrinter
      ["\"cont".toList, "ent\": \"h".toList, "i\",".toList]).2 = "hi".toList :=
  fragmentation_invariance_amended [] "hi".toList [] (by simp) (by decide)
    (by decide) (by simp) _ rfl rfl

end Calais
